import Mathlib

/-!
# Verification of the `currust` cursor-conversion core

Shallow embedding, in Lean 4, of the parts of the `currust` repository that
the specification's quantified claims talk about:

* `src/cursors/cursor_image.rs` — the `CursorImage` constructor;
* `src/formats/xcursor.rs`      — the Xcursor encoder (`Xcursor::new`,
  `to_pre_argb`, `pre_alpha_formula`) and its byte serialization;
* `src/formats/ani.rs`          — the RIFF/ACON (`ANI`) decoder
  (`AniFile::from_blob`, `parse_list`, `check_invariants`);
* `src/cursors/generic_cursor.rs` — `GenericCursor` construction
  (`new`, `new_with_scaled`, `add_scale`) and the ANI frame partition of
  `from_ani_path`, plus the file-extension guards of `from_cur_path` /
  `from_ani_path`.

Machine integers (`u8`, `u16`, `u32`) are modelled as `Nat` with explicit
`% 2^w` at the operations where Rust release-mode wrapping matters.
Fallible Rust functions returning `anyhow::Result` are modelled with
`Except String`; a Rust panic (e.g. an out-of-bounds index) is modelled as
an `Except.error` whose message starts with `panic:`.  `f64` values that
the source produces are modelled exactly as rationals together with an
explicit round-to-53-bit-significand operation (`fl53`), which agrees with
IEEE-754 binary64 round-to-nearest-even on every binade used by the code.
-/

namespace Currust

/-! ## Byte sequences

A read-only Rust byte slice `&[u8]` is a length together with indexed
access; reads through an `io::Cursor` keep an explicit position. -/

/-- A read-only byte blob (`&[u8]`): a length and an index function.
Positions `i < len` hold byte `byteAt i`; the parser never reads beyond
`len`. -/
structure ByteSeq where
  len : Nat
  byteAt : Nat → Nat

/-- Build a `ByteSeq` from an explicit list of bytes. -/
def ByteSeq.ofList (l : List Nat) : ByteSeq :=
  ⟨l.length, fun i => l.getD i 0⟩

/-- Little-endian `u32` assembled from the four bytes at `pos`
(`u32::from_le_bytes`). -/
def ByteSeq.u32At (b : ByteSeq) (pos : Nat) : Nat :=
  b.byteAt pos + 256 * b.byteAt (pos + 1) + 65536 * b.byteAt (pos + 2) +
    16777216 * b.byteAt (pos + 3)

/-! ## `CursorImage` (src/cursors/cursor_image.rs) -/

/-- `CursorImage`: one RGBA frame with hotspot and per-frame delay
(fields as in `src/cursors/cursor_image.rs`). -/
structure CursorImage where
  width : Nat
  height : Nat
  hotspot_x : Nat
  hotspot_y : Nat
  rgba : List Nat
  delay : Nat
deriving DecidableEq, Repr

/-- `CursorImage::dimensions`: `(width, height)`. -/
def CursorImage.dimensions (c : CursorImage) : Nat × Nat :=
  (c.width, c.height)

/-- `CursorImage::nominal_size`: `max(width, height)`. -/
def CursorImage.nominal_size (c : CursorImage) : Nat :=
  max c.dimensions.1 c.dimensions.2

/-- `CursorImage::new` (src/cursors/cursor_image.rs, lines 44–84).

The Rust width/height/hotspot arguments are `u32`; the length comparison
`(width * height * 4) != rgba.len().try_into()?` is `u32` arithmetic, so
the product wraps modulo `2^32` in release builds, and `try_into` fails
when `rgba.len()` does not fit a `u32`. -/
def CursorImage.new (width height hotspot_x hotspot_y : Nat)
    (rgba : List Nat) (delay : Nat) : Except String CursorImage :=
  if width = 0 then .error "width cannot be zero"
  else if height = 0 then .error "height cannot be zero"
  else if hotspot_x > width then .error "hotspot_x cannot be greater than width"
  else if hotspot_y > height then .error "hotspot_y cannot be greater than height"
  else if 4294967296 ≤ rgba.length then .error "rgba.len() out of range for u32"
  else if width * height % 4294967296 * 4 % 4294967296 ≠ rgba.length then
    .error "unexpected rgba.len()"
  else .ok ⟨width, height, hotspot_x, hotspot_y, rgba, delay⟩

/-- `CursorImage::new_with_delay` as called from
`src/cursors/generic_cursor.rs`: same validation as `CursorImage::new`
with an explicit delay (in `src/cursors/cursor_image.rs` the constructor
already takes the delay as its sixth argument). -/
def CursorImage.new_with_delay (width height hotspot_x hotspot_y : Nat)
    (rgba : List Nat) (delay : Nat) : Except String CursorImage :=
  CursorImage.new width height hotspot_x hotspot_y rgba delay

/-! ## Pre-multiplied ARGB (src/formats/xcursor.rs) -/

/-- `pre_alpha_formula` (src/formats/xcursor.rs): the `u8` inputs are
widened to `u16` (`c as u16 * a as u16` cannot overflow for bytes), 127 is
added to round to the closest integer, and the quotient (always ≤ 255 for
byte inputs) is truncated back to `u8`. -/
def pre_alpha_formula (c a : Nat) : Nat :=
  (c * a + 127) / 255

/-- `to_pre_argb` (src/formats/xcursor.rs): for each 4-byte chunk
`[r, g, b, a]` the code swaps bytes 0 and 2 (giving `[b, g, r, a]`) and
then replaces each of the first three bytes `x` by
`pre_alpha_formula x a`.  A remainder shorter than four bytes is left
untouched (`as_chunks_mut` only yields full chunks). -/
def to_pre_argb : List Nat → List Nat
  | r :: g :: b :: a :: rest =>
      pre_alpha_formula b a :: pre_alpha_formula g a ::
        pre_alpha_formula r a :: a :: to_pre_argb rest
  | rest => rest

/-! ## An exact model of the `f64` computations

`src/cursors/generic_cursor.rs` computes frame delays with
`(f64::from(j) * 1000.0 / 60.0).round() as u32`.  Binary64 values in the
range touched by that expression (magnitudes in `[1, 2^53)`, plus zero)
are rationals with a 53-bit significand, so the computation is embedded
exactly over `ℚ`: `fl53` is IEEE-754 round-to-nearest-even to a 53-bit
significand (the rounding every binary64 operation performs on its exact
result), `f64round` is `f64::round` (half away from zero) and `f64toU32`
is the saturating `as u32` cast. -/

/-- Fuelled binary logarithm: `log2fuel fuel n` is `⌊log₂ n⌋` whenever
`1 ≤ n < 2 ^ fuel` (structural recursion so that the kernel can reduce
it). -/
def log2fuel : Nat → Nat → Nat
  | 0, _ => 0
  | fuel + 1, n => if 2 ≤ n then log2fuel fuel (n / 2) + 1 else 0

/-- Binade exponent of a positive natural below `2^64`. -/
def binExp (m : Nat) : Nat := log2fuel 64 m

/-- Round a rational to the nearest integer, ties to even. -/
def roundTiesEven (q : ℚ) : ℤ :=
  if q - ⌊q⌋ < 1/2 then ⌊q⌋
  else if 1/2 < q - ⌊q⌋ then ⌊q⌋ + 1
  else if Even ⌊q⌋ then ⌊q⌋ else ⌊q⌋ + 1

/-- Round a nonnegative rational to a 53-bit significand: the value a
binary64 operation returns for exact result `q`.  For `q` in `[1, 2^64)`
this is exactly IEEE-754 binary64 round-to-nearest-even; the code that is
being modelled only ever rounds `0` or values in `[1, 2^42]`. -/
def fl53 (q : ℚ) : ℚ :=
  if q ≤ 0 then 0
  else
    let e := binExp ⌊q⌋.toNat
    if e ≤ 52 then (roundTiesEven (q * 2 ^ (52 - e)) : ℚ) / 2 ^ (52 - e)
    else (roundTiesEven (q / 2 ^ (e - 52)) : ℚ) * 2 ^ (e - 52)

/-- `f64::round`: round half away from zero (result is an integer-valued
binary64, returned here as a rational). -/
def f64round (q : ℚ) : ℚ :=
  if 0 ≤ q then (⌊q + 1/2⌋ : ℚ) else (-⌊-q + 1/2⌋ : ℚ)

/-- `as u32` on a finite `f64`: truncate toward zero and saturate to
`[0, u32::MAX]`. -/
def f64toU32 (q : ℚ) : Nat :=
  min ⌊q⌋.toNat 4294967295

/-- The jiffy→millisecond conversion of
`GenericCursor::from_ani_path` (src/cursors/generic_cursor.rs):
`(f64::from(j) * 1000.0 / 60.0).round() as u32`.  `f64::from(j)` is exact
for every `u32`; the product and the quotient are each rounded to
binary64 (`fl53`); the value `.round()` produces is an integer of
magnitude < 2^53 and hence already exactly representable. -/
def jiffies_to_ms (j : Nat) : Nat :=
  f64toU32 (f64round (fl53 (fl53 ((j : ℚ) * 1000) / 60)))

/-! ## `GenericCursor` (src/cursors/generic_cursor.rs)

The pixel resamplers (`scale_nearest`, `scale_box_average`) are the
external collaborators the spec names; they are passed in as an abstract
`resampler` argument (`rgba → width → height → new_width → new_height →
rgba`).  The `f64` scale factors are modelled as exact rationals: every
factor the settled claims evaluate (small integer ratios) is exactly
representable in binary64, where division is exact on them. -/

/-- `ScalingType` (src/cursors/cursor_image.rs). -/
inductive ScalingType where
  | Upscale
  | Downscale
deriving DecidableEq, Repr

/-- The type of the external pixel resampler:
`resampler rgba w h sw sh` is the scaled RGBA buffer. -/
def Resampler : Type := List Nat → Nat → Nat → Nat → Nat → List Nat

/-- `CursorImage::scaled_to` (src/cursors/cursor_image.rs): scales
dimensions and hotspot by the `u32` factor (multiplication wraps mod
`2^32`; division by a zero factor is a Rust panic, modelled as an error)
and delegates the pixels to the resampler.  The Rust body itself never
returns `Err`. -/
def CursorImage.scaled_to (resampler : Resampler) (c : CursorImage)
    (scale_factor : Nat) (scale_type : ScalingType) : Except String CursorImage :=
  match scale_type with
  | .Downscale =>
      if scale_factor = 0 then .error "panic: attempt to divide by zero"
      else
        .ok ⟨c.width / scale_factor, c.height / scale_factor,
          c.hotspot_x / scale_factor, c.hotspot_y / scale_factor,
          resampler c.rgba c.width c.height (c.width / scale_factor)
            (c.height / scale_factor), c.delay⟩
  | .Upscale =>
      .ok ⟨c.width * scale_factor % 4294967296, c.height * scale_factor % 4294967296,
        c.hotspot_x * scale_factor % 4294967296, c.hotspot_y * scale_factor % 4294967296,
        resampler c.rgba c.width c.height (c.width * scale_factor % 4294967296)
          (c.height * scale_factor % 4294967296), c.delay⟩

/-- The in-memory cursor model (src/cursors/generic_cursor.rs): base
frames, scaled groups, and the registered scale factors. -/
structure GenericCursor where
  base : List CursorImage
  scaled : List (List CursorImage)
  scale_factors : List ℚ
deriving DecidableEq, Repr

/-- `GenericCursor::has_consistent_dimensions`: every image shares the
dimensions of the first one (vacuously true of an empty list). -/
def GenericCursor.has_consistent_dimensions (images : List CursorImage) : Bool :=
  match images with
  | [] => true
  | i0 :: _ => images.all fun img => img.dimensions = i0.dimensions

/-- `GenericCursor::new`: trivial constructor; registers scale factor 1. -/
def GenericCursor.new (base_images : List CursorImage) : Except String GenericCursor :=
  if base_images.isEmpty then .error "base_images cannot be empty"
  else if ¬GenericCursor.has_consistent_dimensions base_images then
    .error "GenericCursor cannot be constructed with base images that do not have the same dimensions"
  else .ok ⟨base_images, [], [1]⟩

/-- The scale-factor loop of `GenericCursor::new_with_scaled`: walks the
scaled groups validating nonemptiness, length against `base_len`,
dimension consistency, and uniqueness of the inferred factor
`nominal(group) / base_nominal`; accumulates factors in push order. -/
def buildScaleFactors (base_nominal : ℚ) (base_len : Nat) :
    List (List CursorImage) → List ℚ → Except String (List ℚ)
  | [], acc => .ok acc
  | [] :: _, _ => .error "scaled_images cannot contain empty vectors"
  | (i0 :: grest) :: gs, acc =>
      if (i0 :: grest).length ≠ base_len then .error "expected base_len images"
      else if ¬GenericCursor.has_consistent_dimensions (i0 :: grest) then
        .error "scaled GenericCursor constructor must have consistent dimensions for scaled frames"
      else if ((i0.nominal_size : ℚ) / base_nominal) ∈ acc then
        .error "scaled GenericCursor constructor must have unique scale factors for scaled frames"
      else
        buildScaleFactors base_nominal base_len gs
          (acc ++ [(i0.nominal_size : ℚ) / base_nominal])

/-- `GenericCursor::new_with_scaled` (src/cursors/generic_cursor.rs,
lines 82–142).  Note that the Rust code indexes `base_images[0]` before
any emptiness check (a panic on an empty base, modelled as an error),
and that the factor list it builds contains only the inferred ratios —
`1.0` is not pushed. -/
def GenericCursor.new_with_scaled :
    List CursorImage → List (List CursorImage) → Except String GenericCursor
  | base_images, [] => GenericCursor.new base_images
  | [], _ :: _ => .error "panic: index out of bounds"
  | b0 :: brest, g0 :: grest =>
      if ¬GenericCursor.has_consistent_dimensions (b0 :: brest) then
        .error "GenericCursor cannot be constructed with base images that do not have the same dimensions"
      else
        match buildScaleFactors (b0.nominal_size : ℚ) (b0 :: brest).length
            (g0 :: grest) [] with
        | .error e => .error e
        | .ok scale_factors => .ok ⟨b0 :: brest, g0 :: grest, scale_factors⟩

/-- `iter().map(f).collect::<Result<Vec<_>>>()`: apply a fallible map,
short-circuiting on the first error. -/
def collectResults (f : CursorImage → Except String CursorImage) :
    List CursorImage → Except String (List CursorImage)
  | [] => .ok []
  | c :: rest =>
      match f c with
      | .error e => .error e
      | .ok c1 =>
          match collectResults f rest with
          | .error e => .error e
          | .ok rest1 => .ok (c1 :: rest1)

/-- The canonical scale factor of `add_scale`: the factor itself for an
upscale, its reciprocal for a downscale. -/
def canonScaleFactor (scale_factor : Nat) (scale_type : ScalingType) : ℚ :=
  match scale_type with
  | .Upscale => (scale_factor : ℚ)
  | .Downscale => 1 / (scale_factor : ℚ)

/-- `GenericCursor::add_scale` (src/cursors/generic_cursor.rs, lines
166–187): canonicalizes the `u32` factor (`f` for upscaling, `1/f` for
downscaling), rejects an already-registered factor, then appends the
factor and one group obtained by mapping `scaled_to` over `base`.
(Rust pushes the factor before mapping, but the map — absent the
division-by-zero panic — cannot fail, so the successful results agree.) -/
def GenericCursor.add_scale (resampler : Resampler) (gc : GenericCursor)
    (scale_factor : Nat) (scale_type : ScalingType) : Except String GenericCursor :=
  if canonScaleFactor scale_factor scale_type ∈ gc.scale_factors then
    .error "scale_factor already added"
  else
    match collectResults (fun c => c.scaled_to resampler scale_factor scale_type)
        gc.base with
    | .error e => .error e
    | .ok scaled_images =>
        .ok ⟨gc.base, gc.scaled ++ [scaled_images],
          gc.scale_factors ++ [canonScaleFactor scale_factor scale_type]⟩

/-! ## ANI loading: frame partition (src/cursors/generic_cursor.rs)

`GenericCursor::from_ani_path` parses the blob with the sibling
`AniFile::from_blob` of src/cursors/ani.rs, decodes each stored frame
with the external `ico` crate (`IconDir::read` / `entry.decode()`), and
then sequences, times and partitions the decoded frames.  The decoded
data is represented by `IcoEntry` (one directory entry with its decoded
RGBA and optional hotspot); the parser and decoder appear as oracle
arguments where the whole path-loading pipeline is assembled. -/

/-- One decoded entry of an ICO/CUR container (what the external `ico`
crate yields): dimensions, the optional cursor hotspot, and the decoded
RGBA bytes. -/
structure IcoEntry where
  width : Nat
  height : Nat
  hotspot : Option (Nat × Nat)
  rgba : List Nat
deriving DecidableEq, Repr

/-- Lexicographic order on dimension pairs — the `Ord` instance of
`(u32, u32)` used by `sort_unstable_by_key(CursorImage::dimensions)`. -/
def dimsLe (a b : Nat × Nat) : Bool :=
  (a.1 < b.1) || (a.1 = b.1 && a.2 ≤ b.2)

/-- Insertion step of the sort by dimensions. -/
def insertByDims (img : CursorImage) : List CursorImage → List CursorImage
  | [] => [img]
  | x :: xs =>
      if dimsLe img.dimensions x.dimensions then img :: x :: xs
      else x :: insertByDims img xs

/-- `scaled_ungrouped.sort_unstable_by_key(CursorImage::dimensions)`:
a sort by the lexicographic dimension key (the source sort is unstable,
so any dimension-sorted rearrangement is a faithful model). -/
def sortByDims : List CursorImage → List CursorImage
  | [] => []
  | x :: xs => insertByDims x (sortByDims xs)

/-- The grouping loop of `from_ani_path` (buffer/current_dims walk over
the sorted frames): when the dimensions change the buffer is emitted and
restarted, and a nonempty final buffer is emitted at the end. -/
def groupByDims : List CursorImage → (Nat × Nat) → List CursorImage → List (List CursorImage)
  | [], _, buffer => if buffer.isEmpty then [] else [buffer]
  | img :: rest, current_dims, buffer =>
      if img.dimensions ≠ current_dims then buffer :: groupByDims rest img.dimensions [img]
      else groupByDims rest current_dims (buffer ++ [img])

/-- Inner loop of `from_ani_path` over the entries of one sequenced ICO:
each entry needs a hotspot, is turned into a `CursorImage` with the step
delay, and is routed to `base` or `scaled_ungrouped` by comparing its
dimensions with `base_dims`. -/
def partitionEntries (base_dims : Nat × Nat) (delay : Nat) :
    List IcoEntry → Except String (List CursorImage × List CursorImage)
  | [] => .ok ([], [])
  | e :: rest =>
      match e.hotspot with
      | none => .error "expected stored ANI frames to be CUR, instead got ICO"
      | some hs =>
          match CursorImage.new_with_delay e.width e.height hs.1 hs.2 e.rgba delay with
          | .error er => .error er
          | .ok img =>
              match partitionEntries base_dims delay rest with
              | .error er => .error er
              | .ok (b, s) =>
                  if img.dimensions = base_dims then .ok (img :: b, s)
                  else .ok (b, img :: s)

/-- Outer loop of `from_ani_path` over `sequenced_icos.iter().zip(delays_ms)`. -/
def partitionFrames (base_dims : Nat × Nat) :
    List (List IcoEntry × Nat) → Except String (List CursorImage × List CursorImage)
  | [] => .ok ([], [])
  | (ico, delay) :: rest =>
      match partitionEntries base_dims delay ico with
      | .error e => .error e
      | .ok (b1, s1) =>
          match partitionFrames base_dims rest with
          | .error e => .error e
          | .ok (b2, s2) => .ok (b1 ++ b2, s1 ++ s2)

/-- The frame pipeline of `GenericCursor::from_ani_path` after
sequencing: take the first frame of the first displayed ICO as the base
dimensions (a panic — modelled as an error — when there is none),
partition every decoded frame against them, and group the remaining
frames by sorted dimensions. -/
def fromAniImagesCore (sequenced_icos : List (List IcoEntry))
    (delays_ms : List Nat) : Except String GenericCursor :=
  match sequenced_icos with
  | [] => .error "panic: index out of bounds"
  | ico0 :: _ =>
    match ico0 with
    | [] => .error "panic: index out of bounds"
    | first_entry :: _ =>
        match partitionFrames (first_entry.width, first_entry.height)
            (sequenced_icos.zip delays_ms) with
        | .error e => .error e
        | .ok (base, scaled_ungrouped) =>
            if scaled_ungrouped.isEmpty then GenericCursor.new base
            else
              GenericCursor.new_with_scaled base
                (groupByDims (sortByDims scaled_ungrouped)
                  (((sortByDims scaled_ungrouped).headD
                    ⟨0, 0, 0, 0, [], 0⟩).dimensions) [])

/-- The body of `GenericCursor::from_ani_path`
(src/cursors/generic_cursor.rs, lines 264–350) from the point where the
ANI chunks are parsed and the per-frame ICOs decoded: build the display
sequence (a panic — modelled as an error — on an out-of-range index), the
per-step delays (the rate table if present, the header jiffy rate
repeated `num_steps` times otherwise, each converted by
`jiffies_to_ms`), then run the partition pipeline. -/
def fromAniImages (icos : List (List IcoEntry)) (sequence : Option (List Nat))
    (rate : Option (List Nat)) (num_steps jiffy_rate : Nat) :
    Except String GenericCursor :=
  match (match sequence with
         | none => Except.ok icos
         | some v => v.mapM fun idx =>
             if h : idx < icos.length then Except.ok icos[idx]
             else Except.error "panic: index out of bounds") with
  | .error e => .error e
  | .ok sequenced_icos =>
      fromAniImagesCore sequenced_icos
        ((match rate with
          | some r => r
          | none => List.replicate num_steps jiffy_rate).map jiffies_to_ms)

/-- The first ICO in display order: with no `seq` chunk the display
order is the file order, so it is `icos[0]`; with a `seq` chunk the
display order is the sequence, so it is `icos[seq[0]]`. -/
def firstDisplayIco (icos : List (List IcoEntry)) :
    Option (List Nat) → Option (List IcoEntry)
  | none => icos.head?
  | some v => v.head?.bind fun i0 => icos[i0]?

/-! ## Path extension guards (src/cursors/generic_cursor.rs)

`Path::extension` on Unix: the portion of the final path component after
its last dot, unless the component has no dot or starts with its only
dot.  Paths are modelled as character lists. -/

/-- Split a path at the slashes. -/
def splitOnSlash : List Char → List (List Char)
  | [] => [[]]
  | c :: rest =>
      if c = '/' then [] :: splitOnSlash rest
      else
        match splitOnSlash rest with
        | [] => [[c]]
        | g :: gs => (c :: g) :: gs

/-- `Path::file_name`: the last nonempty, non-`.` component, unless it is
`..`. -/
def pathFileName (p : List Char) : Option (List Char) :=
  let comps := (splitOnSlash p).filter fun comp => !comp.isEmpty && !(comp = ['.'] : Bool)
  match comps.getLast? with
  | none => none
  | some leaf => if leaf = ['.', '.'] then none else some leaf

/-- The portion of a component after its last dot, if it has any dot. -/
def extAfterLastDot : List Char → Option (List Char)
  | [] => none
  | c :: rest =>
      match extAfterLastDot rest with
      | some e => some e
      | none => if c = '.' then some rest else none

/-- `Path::extension`: the portion of the file name after its final dot;
`none` when there is no file name, no dot, or the only dot is leading. -/
def pathExtension (p : List Char) : Option (List Char) :=
  match pathFileName p with
  | none => none
  | some [] => none
  | some (_ :: rest) => extAfterLastDot rest

/-- `path.extension().is_none_or(|ext| ext != expected)`: the guard
condition both loaders bail on. -/
def extensionIsNoneOrNe (p expected : List Char) : Bool :=
  match pathExtension p with
  | none => true
  | some ext => ext ≠ expected

/-- `GenericCursor::from_cur_path` (src/cursors/generic_cursor.rs, lines
198–243).  The filesystem read and the `IconDir` decode of the external
`ico` crate are a single oracle `readIcon` from the path to the decoded
entries; everything after it mirrors the source: require at least one
entry, require a hotspot on each, build static `CursorImage`s (delay 0)
and finish with `GenericCursor::new`. -/
def from_cur_path (readIcon : List Char → Except String (List IcoEntry))
    (cur_path : List Char) : Except String GenericCursor :=
  if extensionIsNoneOrNe cur_path "cur".toList then
    .error "expected cur_path to have extension cur"
  else do
    let entries ← readIcon cur_path
    if entries.isEmpty then .error "no stored images found"
    else do
      let images ← entries.mapM fun e =>
        match e.hotspot with
        | none => Except.error "provided cur_path must be to CUR, not ICO"
        | some hs => CursorImage.new e.width e.height hs.1 hs.2 e.rgba 0
      GenericCursor.new images

/-- The fields of the src/cursors/ani.rs `AniFile` that
`GenericCursor::from_ani_path` consumes after parsing. -/
structure AniParsed where
  num_steps : Nat
  jiffy_rate : Nat
  rate : Option (List Nat)
  sequence : Option (List Nat)
  ico_frames : List (List Nat)
deriving DecidableEq, Repr

/-- `GenericCursor::from_ani_path` (src/cursors/generic_cursor.rs, lines
252–350): the extension guard, then the filesystem read (`readFile`), the
sibling src/cursors/ani.rs `AniFile::from_blob` (`parseAni`) and the
external `ico` crate decode of every frame (`readIcon`) — all three
passed as oracles, since every claim settled against this function is
independent of their internals — and finally the pure frame pipeline
`fromAniImages`. -/
def from_ani_path (readFile : List Char → Except String (List Nat))
    (parseAni : List Nat → Except String AniParsed)
    (readIcon : List Nat → Except String (List IcoEntry))
    (ani_path : List Char) : Except String GenericCursor :=
  if extensionIsNoneOrNe ani_path "ani".toList then
    .error "expected ani_path to have extension ani"
  else do
    let blob ← readFile ani_path
    let ani ← parseAni blob
    let icos ← ani.ico_frames.mapM readIcon
    fromAniImages icos ani.sequence ani.rate ani.num_steps ani.jiffy_rate

/-! ## The ANI decoder (src/formats/ani.rs)

A faithful embedding of `AniFile::from_blob` and its helpers over a
`ByteSeq` with an explicit cursor position.  binrw `pad_after` performs a
seek, which on an `io::Cursor` may move past the end without error, so
padding skips are plain position arithmetic; every actual read is
bounds-checked.  The loops are driven by a fuel argument that strictly
dominates the number of iterations (each iteration consumes at least
four bytes), so the fuel never runs out on the positions reached. -/

/-- `read_exact` of `n` bytes at `pos` (fails at end of blob). -/
def readExact (b : ByteSeq) (pos n : Nat) : Except String (List Nat × Nat) :=
  if pos + n ≤ b.len then .ok ((List.range n).map fun k => b.byteAt (pos + k), pos + n)
  else .error "failed to fill whole buffer"

/-- Read a little-endian `u32`. -/
def readU32 (b : ByteSeq) (pos : Nat) : Except String (Nat × Nat) :=
  if pos + 4 ≤ b.len then .ok (b.u32At pos, pos + 4)
  else .error "failed to fill whole buffer"

/-- Read `n` little-endian `u32` values (binrw `count = n` over `u32`). -/
def readU32s (b : ByteSeq) : Nat → Nat → Except String (List Nat × Nat)
  | 0, pos => .ok ([], pos)
  | n + 1, pos => do
      let (v, pos) ← readU32 b pos
      let (vs, pos) ← readU32s b n pos
      .ok (v :: vs, pos)

/-- binrw `NullString::read_le`: bytes up to and excluding a consumed
null terminator; fails at end of blob.  Fuelled by the remaining length. -/
def readNullString (b : ByteSeq) : Nat → Nat → Except String (List Nat × Nat)
  | 0, _ => .error "failed to fill whole buffer"
  | fuel + 1, pos =>
      if pos < b.len then
        if b.byteAt pos = 0 then .ok ([], pos + 1)
        else do
          let (s, p) ← readNullString b fuel (pos + 1)
          .ok (b.byteAt pos :: s, p)
      else .error "failed to fill whole buffer"

/-- `AniFlags` (src/formats/ani.rs): the two valid `u32` flag values. -/
inductive AniFlags where
  | Unsequenced
  | Sequenced
deriving DecidableEq, Repr

instance : Inhabited AniFlags := ⟨.Unsequenced⟩

/-- `AniHeader` (the anih chunk payload). -/
structure AniHeader where
  num_frames : Nat
  num_steps : Nat
  jiffy_rate : Nat
  flags : AniFlags
deriving DecidableEq, Repr

/-- `AniHeader::default()`: all-zero counts, default flags. -/
def AniHeader.default : AniHeader := ⟨0, 0, 0, .Unsequenced⟩

/-- `AniHeader::read_le`: size field, header-size field (both asserted to
be 36), the two counts, 16 bytes of unused fields skipped by
`pad_after = 16`, the default jiffy rate and the flags (`1` or `3`). -/
def AniHeader.read_le (b : ByteSeq) (pos : Nat) : Except String (AniHeader × Nat) := do
  let (anih_size, pos) ← readU32 b pos
  let (header_size, pos) ← readU32 b pos
  if anih_size = header_size ∧ header_size = 36 then do
    let (num_frames, pos) ← readU32 b pos
    let (num_steps, pos) ← readU32 b pos
    let pos := pos + 16
    let (jiffy_rate, pos) ← readU32 b pos
    let (flags_raw, pos) ← readU32 b pos
    match flags_raw with
    | 1 => .ok (⟨num_frames, num_steps, jiffy_rate, .Unsequenced⟩, pos)
    | 3 => .ok (⟨num_frames, num_steps, jiffy_rate, .Sequenced⟩, pos)
    | _ => .error "failed to read anih chunk"
  else .error "failed to read anih chunk"

/-- `RiffChunkU32` (src/formats/ani.rs): a `u32`-array chunk. -/
structure RiffChunkU32 where
  data : List Nat
deriving DecidableEq, Repr

/-- `RiffChunkU32::read_le`: a size field, then `size / 4` little-endian
`u32` values; no padding (the payload is inherently even). -/
def RiffChunkU32.read_le (b : ByteSeq) (pos : Nat) :
    Except String (RiffChunkU32 × Nat) := do
  let (data_size, pos) ← readU32 b pos
  let (data, pos) ← readU32s b (data_size / 4) pos
  .ok (⟨data⟩, pos)

/-- `RiffChunkU8` (src/formats/ani.rs): a byte chunk. -/
structure RiffChunkU8 where
  data : List Nat
deriving DecidableEq, Repr

/-- `RiffChunkU8::read_le`: a size field, `size` payload bytes, and a
skipped pad byte when the payload length is odd (`pad_after = size % 2`,
a seek). -/
def RiffChunkU8.read_le (b : ByteSeq) (pos : Nat) :
    Except String (RiffChunkU8 × Nat) := do
  let (data_size, pos) ← readU32 b pos
  let (data, pos) ← readExact b pos data_size
  .ok (⟨data⟩, pos + data_size % 2)

/-- The parsed `AniFile` (src/formats/ani.rs). -/
structure AniFile where
  header : AniHeader
  title : Option (List Nat)
  author : Option (List Nat)
  rate : Option RiffChunkU32
  sequence : Option RiffChunkU32
  ico_frames : List RiffChunkU8
deriving DecidableEq, Repr

/-- `AniFile::default()`. -/
def AniFile.default : AniFile := ⟨AniHeader.default, none, none, none, none, []⟩

/-- `MAX_CHUNK_SIZE` (src/formats/ani.rs): 2 MiB. -/
def MAX_CHUNK_SIZE : Nat := 2097152

/-- The INFO sub-loop of `AniFile::parse_list`: INAM/IART subchunks (each
a tag, a size field that the source discards, and a null-terminated
string), with duplicate checks, until the cursor reaches `endPos`. -/
def parseInfo (b : ByteSeq) : Nat → Nat → Nat → AniFile →
    Except String (AniFile × Nat)
  | 0, _, _, _ => .error "fuel exhausted"
  | fuel + 1, pos, endPos, ani =>
      if pos < endPos then do
        let (tag, pos) ← readExact b pos 4
        if tag = [73, 78, 65, 77] then  -- INAM
          if ani.title.isSome then .error "duplicate INAM subchunk in INFO"
          else do
            let (_, pos) ← readU32 b pos
            let (s, pos) ← readNullString b (b.len + 1) pos
            parseInfo b fuel pos endPos { ani with title := some s }
        else if tag = [73, 65, 82, 84] then  -- IART
          if ani.author.isSome then .error "duplicate IART subchunk in INFO"
          else do
            let (_, pos) ← readU32 b pos
            let (s, pos) ← readNullString b (b.len + 1) pos
            parseInfo b fuel pos endPos { ani with author := some s }
        else .error "expected INAM or IART subchunk in INFO"
      else .ok (ani, pos)

/-- The fram sub-loop of `AniFile::parse_list`: icon subchunks until the
cursor reaches `endPos`, accumulated in encounter order. -/
def parseFram (b : ByteSeq) : Nat → Nat → Nat →
    Except String (List RiffChunkU8 × Nat)
  | 0, _, _ => .error "fuel exhausted"
  | fuel + 1, pos, endPos =>
      if pos < endPos then do
        let (tag, pos) ← readExact b pos 4
        if tag = [105, 99, 111, 110] then do  -- icon
          let (chunk, pos) ← RiffChunkU8.read_le b pos
          let (chunks, pos) ← parseFram b fuel pos endPos
          .ok (chunk :: chunks, pos)
        else .error "expected icon subchunk"
      else .ok ([], pos)

/-- `AniFile::parse_list` (src/formats/ani.rs, lines 330–422): size field,
list id, underflow check on `size - 4`, the 2 MiB cap, the bounds check
of `pos + list_data_size` against the blob, then the INFO branch (with
odd-size pad skip) or the fram branch (duplicate check, nonempty result
required).  There is no separate cap for fram. -/
def parse_list (b : ByteSeq) (pos : Nat) (ani : AniFile) :
    Except String (AniFile × Nat) := do
  let (list_size, pos) ← readU32 b pos
  let (list_id, pos) ← readExact b pos 4
  if list_size < 4 then .error "underflow on list_size - 4"
  else
    let list_data_size := list_size - 4
    if list_data_size > MAX_CHUNK_SIZE then
      .error "list_data_size unreasonably large"
    else
      let endPos := pos + list_data_size
      if endPos > b.len then .error "list_data_size extends beyond blob"
      else if list_id = [73, 78, 70, 79] then do  -- INFO
        let (ani, pos) ← parseInfo b (list_data_size + 1) pos endPos ani
        if list_data_size % 2 ≠ 0 then .ok (ani, pos + 1) else .ok (ani, pos)
      else if list_id = [102, 114, 97, 109] then  -- fram
        if ¬ani.ico_frames.isEmpty then .error "duplicate fram chunk"
        else do
          let (chunks, pos) ← parseFram b (list_data_size + 1) pos endPos
          if chunks.isEmpty then .error "failed to parse any frames from fram chunk"
          else .ok ({ ani with ico_frames := chunks }, pos)
      else .error "unexpected list_id"

/-- The chunk-dispatch loop of `AniFile::from_blob` (lines 277–317): read
a four-byte id while bytes remain and dispatch on LIST / anih / rate /
seq, refusing duplicates (the anih duplicate test compares the header
already stored against `AniHeader::default()`). -/
def parseChunks (b : ByteSeq) : Nat → Nat → AniFile → Except String AniFile
  | 0, _, _ => .error "fuel exhausted"
  | fuel + 1, pos, ani =>
      if pos < b.len then do
        let (tag, pos) ← readExact b pos 4
        if tag = [76, 73, 83, 84] then do  -- LIST
          let (ani, pos) ← parse_list b pos ani
          parseChunks b fuel pos ani
        else if tag = [97, 110, 105, 104] then  -- anih
          if ani.header ≠ AniHeader.default then .error "duplicate anih chunk"
          else do
            let (header, pos) ← AniHeader.read_le b pos
            parseChunks b fuel pos { ani with header := header }
        else if tag = [114, 97, 116, 101] then  -- rate
          if ani.rate.isSome then .error "duplicate rate chunk"
          else do
            let (chunk, pos) ← RiffChunkU32.read_le b pos
            parseChunks b fuel pos { ani with rate := some chunk }
        else if tag = [115, 101, 113, 32] then  -- seq + space
          if ani.sequence.isSome then .error "duplicate seq chunk"
          else do
            let (chunk, pos) ← RiffChunkU32.read_le b pos
            parseChunks b fuel pos { ani with sequence := some chunk }
        else .error "unexpected fourcc"
      else .ok ani

/-- `iter().max()` over the sequence data (`Option<&u32>`). -/
def listMax : List Nat → Option Nat :=
  List.foldl (fun acc x =>
    match acc with
    | none => some x
    | some m => some (max m x)) none

/-- `AniFile::check_invariants` (src/formats/ani.rs, lines 430–482); the
fatal checks, in source order (the remaining checks only print
warnings and cannot fail). -/
def check_invariants (ani : AniFile) : Except String Unit :=
  if ani.header.num_frames ≠ ani.ico_frames.length then
    .error "expected num_frames to match ico_frames length"
  else if ani.header.jiffy_rate = 0 ∧ ani.rate = none ∧ ani.ico_frames.length > 1 then
    .error "no frame timings"
  else if (match ani.sequence with
           | some s => match listMax s.data with
             | some m => ani.header.num_frames ≤ m
             | none => false
           | none => false : Bool) then
    .error "frame indices of seq chunk go out of bounds"
  else if (match ani.rate with
           | some r => r.data.length ≠ ani.header.num_steps
           | none => false : Bool) then
    .error "expected num_steps to match rate length"
  else .ok ()

/-- The parse phase of `AniFile::from_blob` (everything before
`check_invariants`): the 2 MiB blob cap, the RIFF magic, the size field
checked against the blob length, the ACON subtype, and the chunk loop. -/
def parsePhase (b : ByteSeq) : Except String AniFile := do
  if b.len > MAX_CHUNK_SIZE then .error "ani_blob unreasonably large"
  else do
    let (tag, pos) ← readExact b 0 4
    if tag ≠ [82, 73, 70, 70] then .error "expected RIFF chunk"  -- RIFF
    else do
      let (riff_size, pos) ← readU32 b pos
      if riff_size > b.len then .error "riff_size extends beyond blob"
      else do
        let (tag2, pos) ← readExact b pos 4
        if tag2 ≠ [65, 67, 79, 78] then .error "expected ACON as RIFF subtype"  -- ACON
        else parseChunks b (b.len + 1) pos AniFile.default

/-- `AniFile::from_blob` (src/formats/ani.rs, lines 241–322): parse, then
run the invariant checks, then return the parsed file. -/
def AniFile.from_blob (b : ByteSeq) : Except String AniFile :=
  match parsePhase b with
  | .error e => .error e
  | .ok ani =>
      match check_invariants ani with
      | .error e => .error e
      | .ok _ => .ok ani

instance {ε α : Type} [DecidableEq ε] [DecidableEq α] : DecidableEq (Except ε α)
  | .ok a, .ok b =>
      if h : a = b then .isTrue (by rw [h]) else .isFalse (by simp [h])
  | .error a, .error b =>
      if h : a = b then .isTrue (by rw [h]) else .isFalse (by simp [h])
  | .ok _, .error _ => .isFalse (by simp)
  | .error _, .ok _ => .isFalse (by simp)

/-! ## The Xcursor encoder (src/formats/xcursor.rs)

`Xcursor::new` assembles a table of contents and the chunk list from a
`GenericCursor`; the only `GenericCursor` methods it touches are
`num_images` (the total frame count), `info` (the optional comment) and
`joined_images` (base frames then scaled frames, flattened), so the
embedding takes that flattened frame list and the optional comment bytes
directly.  The binrw `#[binwrite]` serialization is embedded as a byte
list (`serXcursor`), all integers little-endian. -/

/-- `ChunkType::Comment` as a `u32` (0xfffe0001). -/
def chunkTypeComment : Nat := 4294836225

/-- `ChunkType::Image` as a `u32` (0xfffd0002). -/
def chunkTypeImage : Nat := 4294770690

/-- One TOC entry: chunk type, subtype (nominal size or comment role) and
absolute file position. -/
structure TableOfContents where
  type : Nat
  subtype : Nat
  position : Nat
deriving DecidableEq, Repr

/-- A comment chunk: role (1 copyright, 2 license, 3 other) and the raw
comment bytes. -/
structure CommentChunk where
  role : Nat
  string : List Nat
deriving DecidableEq, Repr

/-- An image chunk (the computed fields of the Rust struct; the constant
header fields are emitted by the serializer). -/
structure ImageChunk where
  nominal_size : Nat
  width : Nat
  height : Nat
  hotspot_x : Nat
  hotspot_y : Nat
  delay : Nat
  argb : List Nat
deriving DecidableEq, Repr

/-- The Xcursor file model: the TOC inside the header, the optional
comment chunk, and the image chunks. -/
structure Xcursor where
  toc : List TableOfContents
  comment : Option CommentChunk
  images : List ImageChunk
deriving DecidableEq, Repr

/-- `bytemuck::pod_collect_to_vec::<u8, u32>` on a little-endian host:
reinterpret groups of four bytes as `u32` words (the buffers cast by the
encoder always have length a multiple of four). -/
def bytesToWordsLE : List Nat → List Nat
  | [] => []
  | [_] => []
  | [_, _] => []
  | [_, _, _] => []
  | b0 :: b1 :: b2 :: b3 :: rest =>
      (b0 + 256 * b1 + 65536 * b2 + 16777216 * b3) :: bytesToWordsLE rest

/-- `impl From<&CursorImage> for ImageChunk`: copy the metadata and run
the pixel buffer through `to_pre_argb`, then reinterpret it as `u32`
words. -/
def ImageChunk.ofImage (img : CursorImage) : ImageChunk :=
  ⟨img.nominal_size, img.width, img.height, img.hotspot_x, img.hotspot_y,
    img.delay, bytesToWordsLE (to_pre_argb img.rgba)⟩

/-- The image loop of `Xcursor::new`: for each image, push a TOC entry
carrying the running position and the image chunk, then advance the
position by `sizes::IMAGE + rgba.len()` (`u32` arithmetic, hence the
explicit wrap; `u32::try_from(rgba.len())` fails above `u32::MAX`). -/
def buildImages : List CursorImage → Nat →
    Except String (List TableOfContents × List ImageChunk × Nat)
  | [], pos => .ok ([], [], pos)
  | img :: rest, pos =>
      if 4294967296 ≤ img.rgba.length then .error "TryInto conversion failed"
      else
        let image_chunk_size := (36 + img.rgba.length) % 4294967296
        match buildImages rest ((pos + image_chunk_size) % 4294967296) with
        | .error e => .error e
        | .ok (toc, chunks, final) =>
            .ok (⟨chunkTypeImage, img.nominal_size, pos⟩ :: toc,
              ImageChunk.ofImage img :: chunks, final)

/-- `Xcursor::new` (src/formats/xcursor.rs, lines 240–275) over the
joined frame list and the optional comment bytes: `toc_count` is the
frame count plus one for a comment; chunks start at
`sizes::XCURSOR + toc_count * sizes::TOC`; the comment (role
`CommentRole::Other` = 3) advances the position by
`sizes::COMMENT + comment.len()`; then the image loop runs.  All
position arithmetic is `u32`. -/
def Xcursor.new (images : List CursorImage) (info : Option (List Nat)) :
    Except String Xcursor :=
  let num_toc := images.length + match info with | some _ => 1 | none => 0
  if 4294967296 ≤ num_toc then .error "TryInto conversion failed"
  else
    let chunks_offset := (16 + num_toc * 12 % 4294967296) % 4294967296
    match info with
    | some s =>
        if 4294967296 ≤ s.length then .error "TryInto conversion failed"
        else
          let comment_toc : TableOfContents := ⟨chunkTypeComment, 3, chunks_offset⟩
          let position := (chunks_offset + (20 + s.length) % 4294967296) % 4294967296
          match buildImages images position with
          | .error e => .error e
          | .ok (toc, chunks, _) =>
              .ok ⟨comment_toc :: toc, some ⟨3, s⟩, chunks⟩
    | none =>
        match buildImages images chunks_offset with
        | .error e => .error e
        | .ok (toc, chunks, _) => .ok ⟨toc, none, chunks⟩

/-- A `u32` as its four little-endian bytes. -/
def serU32 (n : Nat) : List Nat :=
  [n % 256, n / 256 % 256, n / 65536 % 256, n / 16777216 % 256]

/-- Serialized TOC entry: type, subtype, position. -/
def serToc (t : TableOfContents) : List Nat :=
  serU32 t.type ++ serU32 t.subtype ++ serU32 t.position

/-- Serialized comment chunk: `header_size=20`, type, role, `version=1`,
length, then the raw bytes. -/
def serComment (c : CommentChunk) : List Nat :=
  serU32 20 ++ serU32 chunkTypeComment ++ serU32 c.role ++ serU32 1 ++
    serU32 c.string.length ++ c.string

/-- Serialized image chunk: `header_size=36`, type, nominal size,
`version=1`, width, height, hotspot, delay, then the pixel words (each a
little-endian `u32`). -/
def serImage (c : ImageChunk) : List Nat :=
  serU32 36 ++ serU32 chunkTypeImage ++ serU32 c.nominal_size ++ serU32 1 ++
    serU32 c.width ++ serU32 c.height ++ serU32 c.hotspot_x ++
    serU32 c.hotspot_y ++ serU32 c.delay ++ (c.argb.map serU32).flatten

/-- The chunks of the file in emission order: the comment chunk, if any,
then the image chunks. -/
def serChunks (x : Xcursor) : List (List Nat) :=
  (match x.comment with
   | some c => [serComment c]
   | none => []) ++ x.images.map serImage

/-- The serialized Xcursor stream: magic `Xcur`, `header_size=16`,
`version=0x10000`, `num_toc`, the TOC entries, then the chunks. -/
def serXcursor (x : Xcursor) : List Nat :=
  [88, 99, 117, 114] ++ serU32 16 ++ serU32 65536 ++ serU32 x.toc.length ++
    (x.toc.map serToc).flatten ++ (serChunks x).flatten

/-! ## Concrete test blobs

Explicit inputs used to exercise the decoder. -/

/-- A minimal well-formed ANI blob: RIFF size 68 / ACON, one anih chunk
(one frame, one step, jiffy rate 1, flags 1), one `LIST fram` with a
single empty icon chunk. -/
def aniBlobMinimal : ByteSeq := ByteSeq.ofList
  [82, 73, 70, 70, 68, 0, 0, 0, 65, 67, 79, 78,
   97, 110, 105, 104, 36, 0, 0, 0, 36, 0, 0, 0, 1, 0, 0, 0, 1, 0, 0, 0,
   0, 0, 0, 0, 0, 0, 0, 0, 0, 0, 0, 0, 0, 0, 0, 0,
   1, 0, 0, 0, 1, 0, 0, 0,
   76, 73, 83, 84, 12, 0, 0, 0, 102, 114, 97, 109,
   105, 99, 111, 110, 0, 0, 0, 0]

/-- A RIFF/ACON blob containing two anih chunks, both with all-zero
counts and jiffy rate and flags 1 (each parses to a header equal to
`AniHeader::default()`). -/
def aniBlobDoubleAnih : ByteSeq := ByteSeq.ofList
  [82, 73, 70, 70, 92, 0, 0, 0, 65, 67, 79, 78,
   97, 110, 105, 104, 36, 0, 0, 0, 36, 0, 0, 0, 0, 0, 0, 0, 0, 0, 0, 0,
   0, 0, 0, 0, 0, 0, 0, 0, 0, 0, 0, 0, 0, 0, 0, 0,
   0, 0, 0, 0, 1, 0, 0, 0,
   97, 110, 105, 104, 36, 0, 0, 0, 36, 0, 0, 0, 0, 0, 0, 0, 0, 0, 0, 0,
   0, 0, 0, 0, 0, 0, 0, 0, 0, 0, 0, 0, 0, 0, 0, 0,
   0, 0, 0, 0, 1, 0, 0, 0]

/-- A 1048654-byte ANI blob whose `LIST fram` declares a data size of
1048586 bytes (over 1 MiB): the 76-byte structured head is listed
explicitly and every later byte — the single icon chunk payload of
1048578 bytes — is zero.  `riff_size = 1048646`, `list_size = 1048590`,
`icon` size `1048578`; the anih chunk declares one frame, one step,
jiffy rate 1, flags 1. -/
def aniBlobBigFram : ByteSeq :=
  ⟨1048654, fun i => List.getD
    [82, 73, 70, 70, 70, 0, 16, 0, 65, 67, 79, 78,
     97, 110, 105, 104, 36, 0, 0, 0, 36, 0, 0, 0, 1, 0, 0, 0, 1, 0, 0, 0,
     0, 0, 0, 0, 0, 0, 0, 0, 0, 0, 0, 0, 0, 0, 0, 0,
     1, 0, 0, 0, 1, 0, 0, 0,
     76, 73, 83, 84, 14, 0, 16, 0, 102, 114, 97, 109,
     105, 99, 111, 110, 2, 0, 16, 0] i 0⟩

/-!
# Part 2 — theorems

All the embedded definitions are above; everything from here on is a
statement about them.
-/

theorem to_pre_argb_length : ∀ l : List Nat, (to_pre_argb l).length = l.length
  | [] => rfl
  | [_] => rfl
  | [_, _] => rfl
  | [_, _, _] => rfl
  | _ :: _ :: _ :: _ :: rest => by
      simp [to_pre_argb, to_pre_argb_length rest]

/-- The per-channel formula `X' = (X·A + 127) / 255` maps an opaque
channel (`A = 255`) to itself. -/
theorem pre_alpha_formula_opaque (x : Nat) : pre_alpha_formula x 255 = x := by
  unfold pre_alpha_formula
  omega

/-- **C3.** For every pixel with source bytes `R,G,B,A`, the Xcursor
encoder's `to_pre_argb` writes the four bytes `B',G',R',A` (the
little-endian byte order of the emitted word) where
`X' = (X·A + 127) / 255`; and for a fully opaque pixel (`A = 255`) each
colour byte is unchanged, so opaque pixels round-trip byte-for-byte as
unpremultiplied BGR. -/
theorem C3_pre_argb_transform :
    (∀ r g b a rest, to_pre_argb (r :: g :: b :: a :: rest) =
      pre_alpha_formula b a :: pre_alpha_formula g a ::
        pre_alpha_formula r a :: a :: to_pre_argb rest)
    ∧ (∀ r g b rest, to_pre_argb (r :: g :: b :: 255 :: rest) =
        b :: g :: r :: 255 :: to_pre_argb rest) := by
  refine ⟨fun r g b a rest => rfl, fun r g b rest => ?_⟩
  simp [to_pre_argb, pre_alpha_formula_opaque]

/-- **C8 counterexample.**  The claim says the constructor must return an
error whenever `rgba.len() ≠ 4·width·height`; but the length comparison
is `u32` arithmetic, so for 65536×65536 the product wraps to 0 and an
empty buffer is accepted even though `4·width·height = 2^34 ≠ 0`. -/
theorem C8_counterexample :
    CursorImage.new 65536 65536 0 0 [] 0 = .ok ⟨65536, 65536, 0, 0, [], 0⟩
    ∧ ([] : List Nat).length ≠ 4 * 65536 * 65536 := by
  constructor
  · rfl
  · decide

/-- **C8 (amended).**  `CursorImage::new` returns an error exactly when
`width = 0`, `height = 0`, `hotspot_x > width`, `hotspot_y > height`,
`rgba.len()` exceeds `u32::MAX`, or the wrapped `u32` product
`width·height·4 (mod 2^32)` differs from `rgba.len()`; in all other
cases it returns a `CursorImage` carrying exactly the given values. -/
theorem C8_cursor_image_new :
    ∀ width height hotspot_x hotspot_y : Nat, ∀ rgba : List Nat, ∀ delay : Nat,
      ((∃ c, CursorImage.new width height hotspot_x hotspot_y rgba delay = .ok c) ↔
        (width ≠ 0 ∧ height ≠ 0 ∧ hotspot_x ≤ width ∧ hotspot_y ≤ height ∧
          rgba.length < 4294967296 ∧
          width * height % 4294967296 * 4 % 4294967296 = rgba.length))
      ∧ (∀ c, CursorImage.new width height hotspot_x hotspot_y rgba delay = .ok c →
          c = ⟨width, height, hotspot_x, hotspot_y, rgba, delay⟩) := by
  intro w h hx hy rgba d
  refine ⟨⟨?_, ?_⟩, ?_⟩
  · rintro ⟨c, hc⟩
    unfold CursorImage.new at hc
    split_ifs at hc <;> simp_all
  · rintro ⟨h1, h2, h3, h4, h5, h6⟩
    unfold CursorImage.new
    split_ifs <;> first | exact ⟨_, rfl⟩ | omega
  · intro c hc
    unfold CursorImage.new at hc
    split_ifs at hc <;> simp_all

/-- **C8 witness.**  A well-formed 1×1 image is accepted. -/
theorem C8_witness :
    ∃ c, CursorImage.new 1 1 0 0 [0, 0, 0, 0] 0 = .ok c :=
  ((C8_cursor_image_new 1 1 0 0 [0, 0, 0, 0] 0).1).mpr (by decide)

/-- **C10.**  `from_cur_path` errors, for every filesystem/decoder
behaviour, on every path whose extension is not exactly the lowercase
`cur` (and `from_ani_path` likewise for `ani`), so a Windows-style
uppercase extension such as `Precision.CUR` is rejected at the loading
interface before any file access. -/
theorem C10_extension_guards :
    (∀ p : List Char, extensionIsNoneOrNe p "cur".toList = true →
      ∀ readIcon, from_cur_path readIcon p =
        .error "expected cur_path to have extension cur")
    ∧ (∀ p : List Char, extensionIsNoneOrNe p "ani".toList = true →
      ∀ readFile parseAni readIcon,
        from_ani_path readFile parseAni readIcon p =
          .error "expected ani_path to have extension ani")
    ∧ pathExtension "Precision.CUR".toList = some "CUR".toList := by
  refine ⟨?_, ?_, by decide⟩
  · intro p hp readIcon
    unfold from_cur_path
    rw [if_pos hp]
  · intro p hp readFile parseAni readIcon
    unfold from_ani_path
    rw [if_pos hp]

/-- **C10 witness.**  The guard fires on the concrete path
`Precision.CUR` no matter what the filesystem oracle would return. -/
theorem C10_witness :
    from_cur_path (fun _ => .error "io error")
      "Precision.CUR".toList =
      .error "expected cur_path to have extension cur" :=
  C10_extension_guards.1 _ (by decide) _

/-! ### The jiffy→millisecond conversion (C4) -/

theorem log2fuel_spec : ∀ fuel n : Nat, 1 ≤ n → n < 2 ^ fuel →
    2 ^ log2fuel fuel n ≤ n ∧ n < 2 ^ (log2fuel fuel n + 1) := by
  intro fuel
  induction fuel with
  | zero =>
      intro n h1 h2
      simp only [pow_zero] at h2
      omega
  | succ f ih =>
      intro n h1 h2
      unfold log2fuel
      by_cases hn : 2 ≤ n
      · rw [if_pos hn]
        have h1' : 1 ≤ n / 2 := by omega
        have h2' : n / 2 < 2 ^ f := by
          rw [pow_succ] at h2
          omega
        obtain ⟨l, r⟩ := ih (n / 2) h1' h2'
        rw [pow_succ, pow_succ]
        omega
      · rw [if_neg hn]
        have : n = 1 := by omega
        subst this
        norm_num

theorem roundTiesEven_sub_abs (q : ℚ) : |(roundTiesEven q : ℚ) - q| ≤ 1/2 := by
  have hfl : (⌊q⌋ : ℚ) ≤ q := Int.floor_le q
  have hfu : q < ⌊q⌋ + 1 := Int.lt_floor_add_one q
  unfold roundTiesEven
  split_ifs with h1 h2 h3 <;> (rw [abs_le]; push_cast; constructor <;> linarith)

theorem roundTiesEven_intCast (n : ℤ) : roundTiesEven (n : ℚ) = n := by
  unfold roundTiesEven
  rw [Int.floor_intCast]
  norm_num

theorem fl53_zero : fl53 0 = 0 := by
  simp [fl53]

/-- `fl53` is exact on integers below `2^53` (such values are exactly
representable in binary64). -/
theorem fl53_natCast (n : Nat) (h1 : 1 ≤ n) (h2 : n < 2 ^ 53) :
    fl53 (n : ℚ) = n := by
  unfold fl53
  have hpos : ¬((n : ℚ) ≤ 0) := by
    push_neg
    exact_mod_cast h1
  rw [if_neg hpos]
  rw [Int.floor_natCast]
  have hspec := log2fuel_spec 64 n h1 (h2.trans (by norm_num))
  have he : binExp ((n : ℤ).toNat) ≤ 52 := by
    rw [Int.toNat_natCast]
    by_contra hcon
    push_neg at hcon
    have : 2 ^ 53 ≤ 2 ^ binExp n := Nat.pow_le_pow_right (by norm_num) hcon
    have := hspec.1
    unfold binExp at *
    omega
  rw [if_pos he]
  rw [Int.toNat_natCast] at he ⊢
  have hcast : (n : ℚ) * 2 ^ (52 - binExp n) =
      (((n : ℤ) * 2 ^ (52 - binExp n) : ℤ) : ℚ) := by
    push_cast
    ring
  rw [hcast, roundTiesEven_intCast]
  push_cast
  rw [div_eq_iff (by positivity)]

/-- Half-ulp error bound for `fl53` on `[1, 2^37]` — a wide cover for
every quotient the jiffy conversion can produce. -/
theorem fl53_err (q : ℚ) (h1 : 1 ≤ q) (h2 : q ≤ 2 ^ 37) :
    |fl53 q - q| ≤ 1 / 2 ^ 16 := by
  unfold fl53
  rw [if_neg (by linarith)]
  have hfl1 : (1 : ℤ) ≤ ⌊q⌋ := by
    rw [Int.le_floor]
    exact_mod_cast h1
  have hfl37 : ⌊q⌋ ≤ 2 ^ 37 := by
    have : (2 : ℚ) ^ 37 = ((2 ^ 37 : ℤ) : ℚ) := by push_cast; ring
    rw [Int.floor_le_iff]
    rw [this] at h2
    push_cast
    linarith
  have hm1 : 1 ≤ ⌊q⌋.toNat := by omega
  have hm37 : ⌊q⌋.toNat ≤ 2 ^ 37 := by omega
  have hspec := log2fuel_spec 64 ⌊q⌋.toNat hm1 (by omega)
  set e := binExp ⌊q⌋.toNat with hedef
  have hee : 2 ^ e ≤ ⌊q⌋.toNat := hspec.1
  have he37 : e ≤ 37 := by
    by_contra hcon
    push_neg at hcon
    have h38 : 2 ^ 38 ≤ 2 ^ e := Nat.pow_le_pow_right (by norm_num) hcon
    omega
  have he : e ≤ 52 := by omega
  rw [if_pos he]
  have hk : (0 : ℚ) < 2 ^ (52 - e) := by positivity
  have habs := roundTiesEven_sub_abs (q * 2 ^ (52 - e))
  have hrw : (roundTiesEven (q * 2 ^ (52 - e)) : ℚ) / 2 ^ (52 - e) - q =
      ((roundTiesEven (q * 2 ^ (52 - e)) : ℚ) - q * 2 ^ (52 - e)) / 2 ^ (52 - e) := by
    field_simp
    ring
  rw [hrw, abs_div, abs_of_pos hk]
  rw [div_le_div_iff hk (by positivity : (0:ℚ) < 2 ^ 16)]
  calc |(roundTiesEven (q * 2 ^ (52 - e)) : ℚ) - q * 2 ^ (52 - e)| * 2 ^ 16
      ≤ (1/2) * 2 ^ 16 := by
        apply mul_le_mul_of_nonneg_right habs (by positivity)
    _ ≤ 1 * 2 ^ (52 - e) := by
        have h15 : (2 : ℚ) ^ 15 ≤ 2 ^ (52 - e) := by
          apply pow_le_pow_right (by norm_num)
          omega
        rw [one_mul]
        calc (1/2 : ℚ) * 2 ^ 16 = 2 ^ 15 := by norm_num
          _ ≤ 2 ^ (52 - e) := h15

/-- The delay `GenericCursor::from_ani_path` computes for a `u32` jiffy
count: the exact rounded value, saturated at `u32::MAX` by the `as u32`
cast. -/
theorem jiffies_to_ms_eq (j : Nat) (hj : j < 4294967296) :
    jiffies_to_ms j = min ((1000 * j + 30) / 60) 4294967295 := by
  rcases Nat.eq_zero_or_pos j with h0 | hpos
  · subst h0
    have hz : ((0 : ℕ) : ℚ) * 1000 = 0 := by norm_num
    have hhalf : ⌊(0 : ℚ) + 1/2⌋ = 0 := by
      rw [Int.floor_eq_iff] <;> norm_num
    unfold jiffies_to_ms
    rw [hz, fl53_zero]
    norm_num [fl53_zero, f64round, f64toU32, hhalf]
  · have hP : fl53 ((j : ℚ) * 1000) = (j : ℚ) * 1000 := by
      have hc : ((j : ℚ) * 1000) = ((j * 1000 : ℕ) : ℚ) := by push_cast; ring
      rw [hc, fl53_natCast (j * 1000) (by omega) (by
        calc j * 1000 < 4294967296 * 1000 := by omega
          _ < 2 ^ 53 := by norm_num)]
    unfold jiffies_to_ms
    rw [hP]
    set q : ℚ := (j : ℚ) * 1000 / 60 with hq
    have hj1 : (1 : ℚ) ≤ (j : ℚ) := by exact_mod_cast hpos
    have hjv : (j : ℚ) < 4294967296 := by exact_mod_cast hj
    have hq1 : 1 ≤ q := by
      rw [hq, le_div_iff (by norm_num)]
      linarith
    have hq2 : q ≤ 2 ^ 37 := by
      rw [hq, div_le_iff (by norm_num)]
      norm_num
      linarith
    have herr := fl53_err q hq1 hq2
    rw [abs_le] at herr
    set t := 100 * j + 3 with ht
    set M := t / 6 with hM
    set r := t % 6 with hr
    have htM : 6 * M + r = t := Nat.div_add_mod t 6
    have hr15 : 1 ≤ r ∧ r ≤ 5 := by omega
    have hsum : q + 1/2 = (M : ℚ) + (r : ℚ) / 6 := by
      have e1 : q + 1/2 = (t : ℚ) / 6 := by
        rw [hq, ht]
        push_cast
        field_simp
        ring
      have e2 : (t : ℚ) = 6 * (M : ℚ) + (r : ℚ) := by
        exact_mod_cast (congrArg (Nat.cast : Nat → ℚ) htM).symm
      rw [e1, e2]
      ring
    have hrlo : (1 : ℚ) ≤ (r : ℚ) := by exact_mod_cast hr15.1
    have hrhi : (r : ℚ) ≤ 5 := by exact_mod_cast hr15.2
    have heps : (1 : ℚ) / 2 ^ 16 < 1 / 6 := by norm_num
    have hfloor : ⌊fl53 q + 1/2⌋ = (M : ℤ) := by
      rw [Int.floor_eq_iff]
      constructor
      · push_cast
        linarith [herr.1]
      · push_cast
        linarith [herr.2]
    have hq'pos : (0 : ℚ) ≤ fl53 q := by linarith [herr.1]
    have hround : f64round (fl53 q) = ((M : ℤ) : ℚ) := by
      unfold f64round
      rw [if_pos hq'pos, hfloor]
    rw [hround]
    unfold f64toU32
    rw [Int.floor_intCast]
    have htn : ((M : ℕ) : ℤ).toNat = M := Int.toNat_natCast M
    rw [htn]
    have hdiv : (1000 * j + 30) / 60 = M := by
      rw [hM, ht]
      omega
    rw [hdiv]

/-- **C4 counterexample.**  The claim asserts the computed delay equals
`(j·1000 + 30) / 60` for every representable `j`; at `j = 257698038`
the exact value `4294967300` does not fit a `u32`, the `as u32` cast
saturates, and the code yields `4294967295` instead. -/
theorem C4_counterexample :
    jiffies_to_ms 257698038 ≠ (257698038 * 1000 + 30) / 60 := by
  rw [jiffies_to_ms_eq 257698038 (by norm_num)]
  decide

/-- **C4 (amended).**  For every `u32` jiffy count `j`, the millisecond
delay computed when loading an ANI equals `(j·1000 + 30) / 60` in exact
integer arithmetic saturated at `u32::MAX`, i.e.
`min ((j·1000 + 30) / 60) 4294967295`; in particular the two agree
whenever the exact value fits a `u32` (all `j ≤ 257698037`). -/
theorem C4_jiffy_ms_conversion :
    ∀ j : Nat, j < 4294967296 →
      jiffies_to_ms j = min ((j * 1000 + 30) / 60) 4294967295 := by
  intro j hj
  rw [jiffies_to_ms_eq j hj, Nat.mul_comm j 1000]

/-- **C4 witness.**  `jiffy_rate = 6` (the spec scenario E2) gives a
100 ms delay. -/
theorem C4_witness : 6 < 4294967296 ∧ jiffies_to_ms 6 = 100 := by
  refine ⟨by norm_num, ?_⟩
  rw [C4_jiffy_ms_conversion 6 (by norm_num)]
  decide

/-! ### `GenericCursor` construction (C5, C6) -/

theorem jiffies_to_ms_three : jiffies_to_ms 3 = 50 := by
  rw [jiffies_to_ms_eq 3 (by norm_num)]
  decide

theorem genericCursor_new_ok (base : List CursorImage) (gc : GenericCursor)
    (h : GenericCursor.new base = .ok gc) : gc = ⟨base, [], [1]⟩ := by
  unfold GenericCursor.new at h
  split_ifs at h <;> simp_all

theorem buildScaleFactors_ok (bn : ℚ) (bl : Nat) :
    ∀ (gs : List (List CursorImage)) (acc fs : List ℚ),
      buildScaleFactors bn bl gs acc = .ok fs → acc.Nodup →
      (∀ g ∈ gs, g.length = bl) ∧ fs.Nodup := by
  intro gs
  induction gs with
  | nil =>
      intro acc fs h hacc
      unfold buildScaleFactors at h
      simp_all
  | cons g gs ih =>
      intro acc fs h hacc
      cases g with
      | nil => unfold buildScaleFactors at h; simp_all
      | cons i0 grest =>
          unfold buildScaleFactors at h
          split_ifs at h with h1 h2 h3
          have hacc1 : (acc ++ [(i0.nominal_size : ℚ) / bn]).Nodup := by
            simp only [List.nodup_append, List.nodup_singleton, true_and]
            exact ⟨hacc, by simpa [List.disjoint_singleton] using h3⟩
          obtain ⟨hlens, hnd⟩ := ih _ fs h hacc1
          refine ⟨?_, hnd⟩
          intro g hg
          rw [List.mem_cons] at hg
          rcases hg with rfl | hg
          · exact not_ne_iff.mp h1
          · exact hlens g hg

theorem genericCursor_new_with_scaled_ok (base : List CursorImage)
    (scaled : List (List CursorImage)) (gc : GenericCursor)
    (h : GenericCursor.new_with_scaled base scaled = .ok gc) :
    gc.base = base ∧ gc.scaled = scaled ∧
      (∀ g ∈ gc.scaled, g.length = gc.base.length) ∧ gc.scale_factors.Nodup := by
  cases scaled with
  | nil =>
      simp only [GenericCursor.new_with_scaled] at h
      have hval := genericCursor_new_ok base gc h
      subst hval
      simp
  | cons g0 grest =>
      cases base with
      | nil => simp only [GenericCursor.new_with_scaled] at h; simp at h
      | cons b0 brest =>
          simp only [GenericCursor.new_with_scaled] at h
          split_ifs at h with hcons
          cases hbs : buildScaleFactors (b0.nominal_size : ℚ) (b0 :: brest).length
              (g0 :: grest) [] with
          | error e => rw [hbs] at h; simp_all
          | ok fs =>
              rw [hbs] at h
              obtain ⟨hlens, hnd⟩ :=
                buildScaleFactors_ok _ _ (g0 :: grest) [] fs hbs (by simp)
              have hgc : gc = ⟨b0 :: brest, g0 :: grest, fs⟩ := by
                simpa [eq_comm] using h
              subst hgc
              exact ⟨rfl, rfl, hlens, hnd⟩

theorem collectResults_ok_length (f : CursorImage → Except String CursorImage) :
    ∀ (l l' : List CursorImage), collectResults f l = .ok l' → l'.length = l.length := by
  intro l
  induction l with
  | nil =>
      intro l' h
      unfold collectResults at h
      simp_all
  | cons c rest ih =>
      intro l' h
      unfold collectResults at h
      cases hf : f c with
      | error e => rw [hf] at h; simp_all
      | ok c1 =>
          rw [hf] at h
          cases hr : collectResults f rest with
          | error e => rw [hr] at h; simp_all
          | ok rest1 =>
              rw [hr] at h
              have hl : c1 :: rest1 = l' := by simpa using h
              subst hl
              simp [ih rest1 hr]

theorem genericCursor_add_scale_ok (resampler : Resampler) (gc : GenericCursor)
    (sf : Nat) (st : ScalingType) (gc' : GenericCursor)
    (h : GenericCursor.add_scale resampler gc sf st = .ok gc') :
    canonScaleFactor sf st ∉ gc.scale_factors ∧
    gc'.base = gc.base ∧
    gc'.scale_factors = gc.scale_factors ++ [canonScaleFactor sf st] ∧
    gc'.scale_factors.count (canonScaleFactor sf st) = 1 ∧
    ∃ g, gc'.scaled = gc.scaled ++ [g] ∧ g.length = gc.base.length := by
  unfold GenericCursor.add_scale at h
  split_ifs at h with hmem
  cases hc : collectResults (fun c => c.scaled_to resampler sf st) gc.base with
  | error e => rw [hc] at h; simp_all
  | ok imgs =>
      rw [hc] at h
      have hval : (⟨gc.base, gc.scaled ++ [imgs],
          gc.scale_factors ++ [canonScaleFactor sf st]⟩ : GenericCursor) = gc' := by
        simpa using h
      subst hval
      refine ⟨hmem, rfl, rfl, ?_, imgs, rfl, collectResults_ok_length _ _ _ hc⟩
      rw [List.count_append]
      simp [List.count_eq_zero_of_not_mem hmem]

/-- **C6 counterexample.**  `new_with_scaled` registers only the inferred
ratios, so a cursor built from a 32×32 base with one 64×64 scaled group
has factor set `[2]` — `1.0` is not registered; and a 32×16 base with a
16×32 scaled group is accepted although the two nominal sizes are both
32, so nominal sizes across `{base} ∪ scaled` need not be distinct. -/
theorem C6_counterexample :
    GenericCursor.new_with_scaled [⟨32, 32, 0, 0, [], 0⟩] [[⟨64, 64, 0, 0, [], 0⟩]]
      = .ok ⟨[⟨32, 32, 0, 0, [], 0⟩], [[⟨64, 64, 0, 0, [], 0⟩]], [2]⟩
    ∧ (1 : ℚ) ∉ [(2 : ℚ)]
    ∧ GenericCursor.new_with_scaled [⟨32, 16, 0, 0, [], 0⟩] [[⟨16, 32, 0, 0, [], 0⟩]]
      = .ok ⟨[⟨32, 16, 0, 0, [], 0⟩], [[⟨16, 32, 0, 0, [], 0⟩]], [1]⟩
    ∧ (⟨32, 16, 0, 0, [], 0⟩ : CursorImage).nominal_size
        = (⟨16, 32, 0, 0, [], 0⟩ : CursorImage).nominal_size := by
  refine ⟨?_, by norm_num, ?_, by decide⟩
  · simp [GenericCursor.new_with_scaled, GenericCursor.has_consistent_dimensions,
      buildScaleFactors, CursorImage.nominal_size, CursorImage.dimensions]
    norm_num
  · simp [GenericCursor.new_with_scaled, GenericCursor.has_consistent_dimensions,
      buildScaleFactors, CursorImage.nominal_size, CursorImage.dimensions]

/-- **C6 (amended).**  For every successfully constructed
`GenericCursor`: every scaled group has the length of `base` and the
factor set is duplicate-free; `new` registers exactly `[1.0]` with no
scaled groups, while `new_with_scaled` registers only the inferred
nominal-size ratios (so 1.0 membership and pairwise-distinct nominal
sizes are not guaranteed); and for every factor accepted by `add_scale`,
afterwards the canonical factor occurs exactly once in the set and
exactly one new scaled group of length `|base|` has been appended. -/
theorem C6_generic_cursor_invariants :
    (∀ base gc, GenericCursor.new base = .ok gc →
      gc.scaled = [] ∧ gc.scale_factors = [1])
    ∧ (∀ base scaled gc, GenericCursor.new_with_scaled base scaled = .ok gc →
      (∀ g ∈ gc.scaled, g.length = gc.base.length) ∧ gc.scale_factors.Nodup)
    ∧ (∀ resampler gc sf st gc',
        GenericCursor.add_scale resampler gc sf st = .ok gc' →
        gc'.scale_factors = gc.scale_factors ++ [canonScaleFactor sf st] ∧
        gc'.scale_factors.count (canonScaleFactor sf st) = 1 ∧
        ∃ g, gc'.scaled = gc.scaled ++ [g] ∧ g.length = gc.base.length) := by
  refine ⟨?_, ?_, ?_⟩
  · intro base gc h
    have := genericCursor_new_ok base gc h
    subst this
    exact ⟨rfl, rfl⟩
  · intro base scaled gc h
    obtain ⟨-, -, hl, hnd⟩ := genericCursor_new_with_scaled_ok base scaled gc h
    exact ⟨hl, hnd⟩
  · intro resampler gc sf st gc' h
    obtain ⟨-, -, hfs, hcount, g, hsc, hlen⟩ :=
      genericCursor_add_scale_ok resampler gc sf st gc' h
    exact ⟨hfs, hcount, g, hsc, hlen⟩

/-- **C6 witness.**  The trivial constructor on a single 32×32 frame. -/
theorem C6_witness :
    (⟨[⟨32, 32, 0, 0, [], 0⟩], [], [1]⟩ : GenericCursor).scaled = []
    ∧ (⟨[⟨32, 32, 0, 0, [], 0⟩], [], [1]⟩ : GenericCursor).scale_factors = [1] :=
  C6_generic_cursor_invariants.1 [⟨32, 32, 0, 0, [], 0⟩] _ rfl

theorem partitionEntries_dims (bd : Nat × Nat) (d : Nat) :
    ∀ (es : List IcoEntry) (b s : List CursorImage),
      partitionEntries bd d es = .ok (b, s) →
      (∀ img ∈ b, img.dimensions = bd) ∧ (∀ img ∈ s, img.dimensions ≠ bd) := by
  intro es
  induction es with
  | nil =>
      intro b s h
      unfold partitionEntries at h
      simp_all
  | cons e rest ih =>
      intro b s h
      unfold partitionEntries at h
      cases hh : e.hotspot with
      | none => rw [hh] at h; simp at h
      | some hs =>
          rw [hh] at h
          dsimp only at h
          cases himg : CursorImage.new_with_delay e.width e.height hs.1 hs.2 e.rgba d with
          | error er => rw [himg] at h; simp at h
          | ok img =>
              rw [himg] at h
              dsimp only at h
              cases hrec : partitionEntries bd d rest with
              | error er => rw [hrec] at h; simp at h
              | ok bs =>
                  obtain ⟨b1, s1⟩ := bs
                  rw [hrec] at h
                  obtain ⟨hb1, hs1⟩ := ih b1 s1 hrec
                  split_ifs at h with hdim
                  · have hp : img :: b1 = b ∧ s1 = s := by simpa using h
                    obtain ⟨rfl, rfl⟩ := hp
                    refine ⟨?_, hs1⟩
                    intro x hx
                    rw [List.mem_cons] at hx
                    rcases hx with rfl | hx
                    · exact hdim
                    · exact hb1 x hx
                  · have hp : b1 = b ∧ img :: s1 = s := by simpa using h
                    obtain ⟨rfl, rfl⟩ := hp
                    refine ⟨hb1, ?_⟩
                    intro x hx
                    rw [List.mem_cons] at hx
                    rcases hx with rfl | hx
                    · exact hdim
                    · exact hs1 x hx

theorem partitionFrames_dims (bd : Nat × Nat) :
    ∀ (l : List (List IcoEntry × Nat)) (b s : List CursorImage),
      partitionFrames bd l = .ok (b, s) →
      (∀ img ∈ b, img.dimensions = bd) ∧ (∀ img ∈ s, img.dimensions ≠ bd) := by
  intro l
  induction l with
  | nil =>
      intro b s h
      unfold partitionFrames at h
      simp_all
  | cons p rest ih =>
      obtain ⟨ico, d⟩ := p
      intro b s h
      unfold partitionFrames at h
      cases he : partitionEntries bd d ico with
      | error er => rw [he] at h; simp at h
      | ok bs1 =>
          obtain ⟨b1, s1⟩ := bs1
          rw [he] at h
          cases hr : partitionFrames bd rest with
          | error er => rw [hr] at h; simp at h
          | ok bs2 =>
              obtain ⟨b2, s2⟩ := bs2
              rw [hr] at h
              have hp : b1 ++ b2 = b ∧ s1 ++ s2 = s := by simpa using h
              obtain ⟨rfl, rfl⟩ := hp
              obtain ⟨hb1, hs1⟩ := partitionEntries_dims bd d ico b1 s1 he
              obtain ⟨hb2, hs2⟩ := ih b2 s2 hr
              constructor
              · intro x hx
                rw [List.mem_append] at hx
                rcases hx with hx | hx
                · exact hb1 x hx
                · exact hb2 x hx
              · intro x hx
                rw [List.mem_append] at hx
                rcases hx with hx | hx
                · exact hs1 x hx
                · exact hs2 x hx

theorem except_bind_ok {α β : Type} (a : α) (f : α → Except String β) :
    (Except.ok a >>= f) = f a := rfl

theorem except_bind_error {α β : Type} (e : String) (f : α → Except String β) :
    ((Except.error e : Except String α) >>= f) = Except.error e := rfl

theorem fromAniImagesCore_ok (seqd : List (List IcoEntry)) (delays : List Nat)
    (gc : GenericCursor) (h : fromAniImagesCore seqd delays = .ok gc) :
    (∀ g ∈ gc.scaled, g.length = gc.base.length) ∧ gc.scale_factors.Nodup ∧
      ∃ e0 es rest b s,
        seqd = (e0 :: es) :: rest ∧
        partitionFrames (e0.width, e0.height) (seqd.zip delays) = .ok (b, s) ∧
        gc.base = b := by
  cases seqd with
  | nil => unfold fromAniImagesCore at h; simp at h
  | cons ico0 rest =>
      cases ico0 with
      | nil => unfold fromAniImagesCore at h; simp at h
      | cons e0 es =>
          unfold fromAniImagesCore at h
          dsimp only at h
          cases hpf : partitionFrames (e0.width, e0.height)
              (((e0 :: es) :: rest).zip delays) with
          | error er => rw [hpf] at h; simp at h
          | ok bs =>
              obtain ⟨b, s⟩ := bs
              rw [hpf] at h
              dsimp only at h
              split_ifs at h with hemp
              · have hval := genericCursor_new_ok b gc h
                subst hval
                exact ⟨by simp, by simp, e0, es, rest, b, s, rfl, hpf, rfl⟩
              · obtain ⟨hbase, -, hlens, hnd⟩ :=
                  genericCursor_new_with_scaled_ok b _ gc h
                exact ⟨hlens, hnd, e0, es, rest, b, s, rfl, hpf, hbase⟩

/-- **C5 (amended).**  When a `GenericCursor` is built from an ANI file,
the frames are partitioned into `base` and scaled groups with the base
dimensions taken from the first frame of the first ICO in display order
(the file order when there is no `seq` chunk, and the order given by the
sequence otherwise) — there is no 32×32 preference — frames of other
dimensions are sorted and grouped by dimensions, and every group must
have the length of `base` (and the inferred factors are pairwise
distinct), or construction fails. -/
theorem C5_ani_partition :
    (∀ icos sequence rate ns jr gc,
      fromAniImages icos sequence rate ns jr = .ok gc →
      (∀ g ∈ gc.scaled, g.length = gc.base.length) ∧ gc.scale_factors.Nodup)
    ∧ (∀ (icos : List (List IcoEntry)) (sequence : Option (List Nat))
        (rate : Option (List Nat)) (ns jr : Nat) (gc : GenericCursor),
      fromAniImages icos sequence rate ns jr = .ok gc →
      ∃ e0 es, firstDisplayIco icos sequence = some (e0 :: es) ∧
        ∀ img ∈ gc.base, img.dimensions = (e0.width, e0.height)) := by
  constructor
  · intro icos sequence rate ns jr gc h
    unfold fromAniImages at h
    cases hseq : (match sequence with
         | none => Except.ok icos
         | some v => v.mapM fun idx =>
             if hlt : idx < icos.length then Except.ok icos[idx]
             else Except.error "panic: index out of bounds") with
    | error e => rw [hseq] at h; simp at h
    | ok seqd =>
        rw [hseq] at h
        obtain ⟨hl, hnd, -⟩ := fromAniImagesCore_ok seqd _ gc h
        exact ⟨hl, hnd⟩
  · intro icos sequence rate ns jr gc h
    cases sequence with
    | none =>
        unfold fromAniImages at h
        dsimp only at h
        obtain ⟨-, -, e0, es, rest, b, s, hshape, hpf, hbase⟩ :=
          fromAniImagesCore_ok _ _ gc h
        refine ⟨e0, es, by rw [hshape]; rfl, ?_⟩
        intro img himg
        rw [hbase] at himg
        exact (partitionFrames_dims _ _ b s hpf).1 img himg
    | some v =>
        unfold fromAniImages at h
        dsimp only at h
        cases hm : v.mapM (fun idx =>
            if hlt : idx < icos.length then Except.ok icos[idx]
            else Except.error "panic: index out of bounds") with
        | error e => rw [hm] at h; simp at h
        | ok seqd =>
            rw [hm] at h
            dsimp only at h
            obtain ⟨-, -, e0, es, rest, b, s, hshape, hpf, hbase⟩ :=
              fromAniImagesCore_ok _ _ gc h
            cases v with
            | nil =>
                rw [List.mapM_nil] at hm
                have hm2 : Except.ok ([] : List (List IcoEntry))
                    = Except.ok seqd := hm
                injection hm2 with hm2
                rw [← hm2] at hshape
                exact absurd hshape (by simp)
            | cons i0 vrest =>
                rw [List.mapM_cons] at hm
                by_cases hlt : i0 < icos.length
                · rw [dif_pos hlt, except_bind_ok] at hm
                  cases hrest : vrest.mapM (fun idx =>
                      if hlt2 : idx < icos.length then Except.ok icos[idx]
                      else Except.error "panic: index out of bounds") with
                  | error e2 =>
                      rw [hrest, except_bind_error] at hm
                      exact absurd hm (by simp)
                  | ok tl =>
                      rw [hrest, except_bind_ok] at hm
                      have hm2 : Except.ok (icos[i0] :: tl)
                          = Except.ok seqd := hm
                      injection hm2 with hm2
                      rw [← hm2] at hshape
                      have hio : icos[i0] = e0 :: es := by
                        injection hshape with h1 h2
                      refine ⟨e0, es, ?_, ?_⟩
                      · simp [firstDisplayIco, List.getElem?_eq_getElem hlt, hio]
                      · intro img himg
                        rw [hbase] at himg
                        exact (partitionFrames_dims _ _ b s hpf).1 img himg
                · rw [dif_neg hlt, except_bind_error] at hm
                  exact absurd hm (by simp)

/-- **C5 counterexample.**  An animation whose first displayed frame is
1×1 but which contains a 32×32 frame: the claim requires the base
dimensions to be 32×32 (32×32 preferred whenever present anywhere), yet
the code keeps the 1×1 frame as base and makes the 32×32 frame a scaled
group. -/
theorem C5_counterexample :
    fromAniImages
        [[⟨1, 1, some (0, 0), [0, 0, 0, 0]⟩],
          [⟨32, 32, some (0, 0), List.replicate 4096 0⟩]] none none 2 3
      = .ok ⟨[⟨1, 1, 0, 0, [0, 0, 0, 0], 50⟩],
          [[⟨32, 32, 0, 0, List.replicate 4096 0, 50⟩]], [32]⟩
    ∧ (⟨1, 1, 0, 0, [0, 0, 0, 0], 50⟩ : CursorImage).dimensions ≠ (32, 32) := by
  constructor
  · simp [fromAniImages, fromAniImagesCore, partitionFrames, partitionEntries,
      CursorImage.new_with_delay, CursorImage.new, jiffies_to_ms_three,
      sortByDims, insertByDims, groupByDims, GenericCursor.new_with_scaled,
      GenericCursor.new, buildScaleFactors, GenericCursor.has_consistent_dimensions,
      CursorImage.dimensions, CursorImage.nominal_size, dimsLe,
      show List.replicate 2 3 = [3, 3] from rfl, -List.reduceReplicate]
  · decide

/-- **C5 witness.**  A two-ICO animation displayed through the sequence
`[1, 0]`: the base frames all carry the dimensions of the first frame of
`icos[1]`, the first ICO in display order. -/
theorem C5_witness :
    ∃ (e0 : IcoEntry) (es : List IcoEntry),
      firstDisplayIco
          [[⟨1, 1, some (0, 0), [1, 2, 3, 4]⟩],
            [⟨1, 1, some (0, 0), [5, 6, 7, 8]⟩]] (some [1, 0])
        = some (e0 :: es) ∧
      ∀ img ∈ (⟨[⟨1, 1, 0, 0, [5, 6, 7, 8], 50⟩,
            ⟨1, 1, 0, 0, [1, 2, 3, 4], 50⟩], [], [1]⟩ : GenericCursor).base,
        img.dimensions = (e0.width, e0.height) :=
  C5_ani_partition.2
    [[⟨1, 1, some (0, 0), [1, 2, 3, 4]⟩], [⟨1, 1, some (0, 0), [5, 6, 7, 8]⟩]]
    (some [1, 0]) none 2 3
    ⟨[⟨1, 1, 0, 0, [5, 6, 7, 8], 50⟩, ⟨1, 1, 0, 0, [1, 2, 3, 4], 50⟩], [], [1]⟩
    (by
      have hseq : List.mapM (fun idx =>
          if h : idx < ([[⟨1, 1, some (0, 0), [1, 2, 3, 4]⟩],
              [⟨1, 1, some (0, 0), [5, 6, 7, 8]⟩]] :
                List (List IcoEntry)).length then
            Except.ok [[(⟨1, 1, some (0, 0), [1, 2, 3, 4]⟩ : IcoEntry)],
              [⟨1, 1, some (0, 0), [5, 6, 7, 8]⟩]][idx]
          else Except.error "panic: index out of bounds") [1, 0]
          = Except.ok [[⟨1, 1, some (0, 0), [5, 6, 7, 8]⟩],
              [⟨1, 1, some (0, 0), [1, 2, 3, 4]⟩]] := rfl
      unfold fromAniImages
      dsimp only
      rw [hseq]
      simp [fromAniImagesCore, partitionFrames, partitionEntries,
        CursorImage.new_with_delay, CursorImage.new, jiffies_to_ms_three,
        GenericCursor.new, GenericCursor.has_consistent_dimensions,
        CursorImage.dimensions, show List.replicate 2 3 = [3, 3] from rfl,
        -List.reduceReplicate])

/-! ### The ANI decoder (C1, C7, C9) -/

theorem listMax_le : ∀ (l : List Nat) (acc : Option Nat) (m : Nat),
    List.foldl (fun acc x =>
      match acc with
      | none => some x
      | some a => some (max a x)) acc l = some m →
    (∀ i ∈ l, i ≤ m) ∧ (∀ a, acc = some a → a ≤ m) := by
  intro l
  induction l with
  | nil =>
      intro acc m h
      simp_all
  | cons x xs ih =>
      intro acc m h
      rw [List.foldl_cons] at h
      obtain ⟨hxs, hstep⟩ := ih _ m h
      cases acc with
      | none =>
          have hx : x ≤ m := hstep x rfl
          refine ⟨?_, by simp⟩
          intro i hi
          rw [List.mem_cons] at hi
          rcases hi with rfl | hi
          · exact hx
          · exact hxs i hi
      | some a =>
          have hax : max a x ≤ m := hstep (max a x) rfl
          constructor
          · intro i hi
            rw [List.mem_cons] at hi
            rcases hi with rfl | hi
            · omega
            · exact hxs i hi
          · intro a1 ha1
            have : a = a1 := by simpa using ha1
            omega

theorem listMax_none : ∀ (l : List Nat) (a : Nat),
    List.foldl (fun acc x =>
      match acc with
      | none => some x
      | some a => some (max a x)) (some a) l ≠ none := by
  intro l
  induction l with
  | nil => intro a; simp
  | cons x xs ih => intro a; rw [List.foldl_cons]; exact ih (max a x)

theorem check_invariants_ok (ani : AniFile) (h : check_invariants ani = .ok ()) :
    ani.header.num_frames = ani.ico_frames.length
    ∧ (∀ s, ani.sequence = some s → ∀ i ∈ s.data, i < ani.header.num_frames)
    ∧ (∀ r, ani.rate = some r → r.data.length = ani.header.num_steps)
    ∧ ¬(ani.header.jiffy_rate = 0 ∧ ani.rate = none ∧ ani.ico_frames.length > 1) := by
  unfold check_invariants at h
  split_ifs at h with h1 h2 h3 h4
  refine ⟨not_ne_iff.mp h1, ?_, ?_, h2⟩
  · intro s hs i hi
    rw [hs] at h3
    dsimp only at h3
    cases hm : listMax s.data with
    | none =>
        unfold listMax at hm
        cases hd : s.data with
        | nil => rw [hd] at hi; simp at hi
        | cons y ys =>
            rw [hd] at hm
            rw [List.foldl_cons] at hm
            exact absurd hm (listMax_none ys y)
    | some m =>
        rw [hm] at h3
        dsimp only at h3
        simp only [decide_eq_true_eq] at h3
        have him : i ≤ m := by
          unfold listMax at hm
          exact (listMax_le s.data none m hm).1 i hi
        omega
  · intro r hr
    rw [hr] at h4
    dsimp only at h4
    simp only [decide_eq_true_eq] at h4
    exact not_ne_iff.mp h4

theorem from_blob_ok (b : ByteSeq) (ani : AniFile)
    (h : AniFile.from_blob b = .ok ani) : check_invariants ani = .ok () := by
  unfold AniFile.from_blob at h
  cases hp : parsePhase b with
  | error e => rw [hp] at h; simp at h
  | ok a =>
      rw [hp] at h
      dsimp only at h
      cases hc : check_invariants a with
      | error e => rw [hc] at h; simp at h
      | ok u =>
          rw [hc] at h
          have : a = ani := by simpa using h
          subst this
          cases u
          exact hc

/-- **C1.**  If `AniFile::from_blob` succeeds, the header frame count
equals the number of parsed ico frames; every sequence index, if a
sequence chunk is present, is strictly below the frame count; the rate
table length, if a rate chunk is present, equals `num_steps`; and a
multi-frame file with `jiffy_rate = 0` and no rate chunk is never
accepted. -/
theorem C1_decode_invariants :
    ∀ (B : ByteSeq) (ani : AniFile), AniFile.from_blob B = .ok ani →
      ani.header.num_frames = ani.ico_frames.length
      ∧ (∀ s, ani.sequence = some s → ∀ i ∈ s.data, i < ani.header.num_frames)
      ∧ (∀ r, ani.rate = some r → r.data.length = ani.header.num_steps)
      ∧ ¬(ani.ico_frames.length > 1 ∧ ani.header.jiffy_rate = 0 ∧ ani.rate = none) := by
  intro B ani h
  obtain ⟨h1, h2, h3, h4⟩ := check_invariants_ok ani (from_blob_ok B ani h)
  refine ⟨h1, h2, h3, ?_⟩
  intro ⟨ha, hb, hc⟩
  exact h4 ⟨hb, hc, ha⟩

/-- **C1 witness.**  A minimal well-formed ANI blob — RIFF/ACON, one
anih chunk (one frame, one step, jiffy rate 1), one `LIST fram` with a
single empty icon chunk — decodes successfully and satisfies the
invariants. -/
theorem C1_witness :
    AniFile.from_blob aniBlobMinimal
      = .ok ⟨⟨1, 1, 1, .Unsequenced⟩, none, none, none, none, [⟨[]⟩]⟩
    ∧ (⟨⟨1, 1, 1, .Unsequenced⟩, none, none, none, none,
        [⟨[]⟩]⟩ : AniFile).header.num_frames
        = (⟨⟨1, 1, 1, .Unsequenced⟩, none, none, none, none,
          [⟨[]⟩]⟩ : AniFile).ico_frames.length :=
  ⟨by decide,
    (C1_decode_invariants aniBlobMinimal
      ⟨⟨1, 1, 1, .Unsequenced⟩, none, none, none, none, [⟨[]⟩]⟩ (by decide)).1⟩

/-- **C9 (code bug).**  A blob holding two anih chunks whose first
occurrence parses to the all-default header (zero counts, zero jiffy
rate, flags 1) is accepted by `AniFile::from_blob`: the duplicate check
compares the stored header against `AniHeader::default()`, so a parsed
header equal to the default is indistinguishable from an absent one, and
the second anih chunk is consumed without the documented duplicate
error.  The last two conjuncts exhibit the two anih fourccs, at offsets
12 and 56 of the accepted input. -/
theorem C9_duplicate_anih_accepted :
    AniFile.from_blob aniBlobDoubleAnih
      = .ok ⟨⟨0, 0, 0, .Unsequenced⟩, none, none, none, none, []⟩
    ∧ readExact aniBlobDoubleAnih 12 4 = .ok ([97, 110, 105, 104], 16)
    ∧ readExact aniBlobDoubleAnih 56 4 = .ok ([97, 110, 105, 104], 60) := by
  refine ⟨by decide, by decide, by decide⟩

/-- **C7 counterexample.**  A 1048654-byte blob (within the 2 MiB cap)
whose fram list declares a data size of 1048586 bytes — over 1 MiB — is
decoded successfully by src/formats/ani.rs: the claimed dedicated 1 MiB
cap on the fram list does not exist there (the fram fourcc sits at
offset 64, the list size field at offset 60). -/
theorem C7_counterexample :
    (AniFile.from_blob aniBlobBigFram).isOk = true
    ∧ aniBlobBigFram.u32At 60 - 4 = 1048586
    ∧ readExact aniBlobBigFram 64 4 = .ok ([102, 114, 97, 109], 68)
    ∧ 1048576 < 1048586
    ∧ aniBlobBigFram.len ≤ 2097152 := by
  refine ⟨by decide, by decide, by decide, by decide, by decide⟩

/-- **C7 (amended).**  The decoder rejects any whole blob larger than
2 MiB and any RIFF list whose declared data size exceeds 2 MiB; the fram
list is covered by the same 2 MiB cap, not by a separate 1 MiB cap. -/
theorem C7_size_caps :
    (∀ B : ByteSeq, 2097152 < B.len →
      AniFile.from_blob B = .error "ani_blob unreasonably large")
    ∧ (∀ (B : ByteSeq) (pos : Nat) (ani : AniFile), 2097156 < B.u32At pos →
      (parse_list B pos ani).isOk = false) := by
  constructor
  · intro B hB
    unfold AniFile.from_blob parsePhase MAX_CHUNK_SIZE
    rw [if_pos hB]
  · intro B pos ani hv
    have hlt : ¬(B.u32At pos < 4) := by omega
    have hbig : 2097152 < B.u32At pos - 4 := by omega
    by_cases h4 : pos + 4 ≤ B.len
    · by_cases h8 : pos + 4 + 4 ≤ B.len
      · simp [parse_list, readU32, readExact, MAX_CHUNK_SIZE, h4, h8, hlt, hbig,
          except_bind_ok, except_bind_error, Except.isOk, Except.toBool]
      · simp [parse_list, readU32, readExact, MAX_CHUNK_SIZE, h4, h8,
          except_bind_ok, except_bind_error, Except.isOk, Except.toBool]
    · simp [parse_list, readU32, MAX_CHUNK_SIZE, h4,
        except_bind_ok, except_bind_error, Except.isOk, Except.toBool]

/-- **C7 witness.**  An oversized blob is rejected outright, and a list
size field of `0xFFFFFFFF` makes `parse_list` fail. -/
theorem C7_witness :
    AniFile.from_blob ⟨2097153, fun _ => 0⟩ = .error "ani_blob unreasonably large"
    ∧ (parse_list (ByteSeq.ofList [255, 255, 255, 255]) 0 AniFile.default).isOk
        = false :=
  ⟨C7_size_caps.1 ⟨2097153, fun _ => 0⟩ (by decide),
    C7_size_caps.2 (ByteSeq.ofList [255, 255, 255, 255]) 0 AniFile.default (by decide)⟩

/-! ### The Xcursor encoder (C2) -/

theorem serU32_length (n : Nat) : (serU32 n).length = 4 := rfl

theorem serToc_length (t : TableOfContents) : (serToc t).length = 12 := rfl

theorem bytesToWordsLE_length :
    ∀ l : List Nat, (bytesToWordsLE l).length = l.length / 4
  | [] => rfl
  | [_] => by simp [bytesToWordsLE]
  | [_, _] => by simp [bytesToWordsLE]
  | [_, _, _] => by simp [bytesToWordsLE]
  | _ :: _ :: _ :: _ :: rest => by
      have := bytesToWordsLE_length rest
      simp only [bytesToWordsLE, List.length_cons]
      omega

theorem flatten_map_serU32_length :
    ∀ l : List Nat, ((l.map serU32).flatten).length = 4 * l.length := by
  intro l
  induction l with
  | nil => rfl
  | cons x xs ih =>
      simp only [List.map_cons, List.flatten_cons, List.length_append,
        serU32_length, List.length_cons, ih]
      omega

theorem flatten_map_serToc_length :
    ∀ l : List TableOfContents, ((l.map serToc).flatten).length = 12 * l.length := by
  intro l
  induction l with
  | nil => rfl
  | cons x xs ih =>
      simp only [List.map_cons, List.flatten_cons, List.length_append,
        serToc_length, List.length_cons, ih]
      omega

theorem serComment_length (c : CommentChunk) :
    (serComment c).length = 20 + c.string.length := by
  simp only [serComment, List.length_append, serU32_length]


theorem serImage_length (c : ImageChunk) :
    (serImage c).length = 36 + 4 * c.argb.length := by
  simp only [serImage, List.length_append, serU32_length, flatten_map_serU32_length]

theorem ofImage_argb_length (img : CursorImage) :
    (ImageChunk.ofImage img).argb.length = img.rgba.length / 4 := by
  simp [ImageChunk.ofImage, bytesToWordsLE_length, to_pre_argb_length]

/-- Full characterization of the image loop of `Xcursor::new` when the
accumulated positions stay below `2^32`. -/
theorem buildImages_spec :
    ∀ (imgs : List CursorImage) (pos : Nat),
      pos + (imgs.map fun i => 36 + i.rgba.length).sum < 4294967296 →
      ∃ toc chunks fin, buildImages imgs pos = .ok (toc, chunks, fin) ∧
        chunks = imgs.map ImageChunk.ofImage ∧
        toc.length = imgs.length ∧
        (∀ k, k < imgs.length →
          (toc.getD k ⟨0, 0, 0⟩).position
              = pos + ((imgs.take k).map fun i => 36 + i.rgba.length).sum
          ∧ (toc.getD k ⟨0, 0, 0⟩).type = chunkTypeImage
          ∧ (toc.getD k ⟨0, 0, 0⟩).subtype
              = (imgs.getD k ⟨0, 0, 0, 0, [], 0⟩).nominal_size) := by
  intro imgs
  induction imgs with
  | nil =>
      intro pos hsum
      refine ⟨[], [], pos, rfl, rfl, rfl, ?_⟩
      intro k hk
      simp at hk
  | cons i rest ih =>
      intro pos hsum
      simp only [List.map_cons, List.sum_cons] at hsum
      have hlen : i.rgba.length < 4294967296 := by omega
      have hsz : (36 + i.rgba.length) % 4294967296 = 36 + i.rgba.length := by
        apply Nat.mod_eq_of_lt
        omega
      have hpos : (pos + (36 + i.rgba.length) % 4294967296) % 4294967296
          = pos + (36 + i.rgba.length) := by
        rw [hsz]
        apply Nat.mod_eq_of_lt
        omega
      obtain ⟨toc, chunks, fin, hbi, hch, htl, hpk⟩ :=
        ih (pos + (36 + i.rgba.length)) (by omega)
      refine ⟨⟨chunkTypeImage, i.nominal_size, pos⟩ :: toc,
        ImageChunk.ofImage i :: chunks, fin, ?_, by simp [hch], by simp [htl], ?_⟩
      · unfold buildImages
        rw [if_neg (by omega)]
        dsimp only
        rw [hpos, hbi]
      · intro k hk
        cases k with
        | zero => simp
        | succ k =>
            have hk' : k < rest.length := by simpa using hk
            obtain ⟨hp, ht, hs⟩ := hpk k hk'
            refine ⟨?_, by simpa using ht, by simpa using hs⟩
            simp only [List.getD_cons_succ, List.take_succ_cons, List.map_cons,
              List.sum_cons, hp]
            omega

theorem flatten_take_map_serImage :
    ∀ images : List CursorImage,
      (∀ img ∈ images, img.rgba.length = 4 * (img.width * img.height)) →
      ∀ k : Nat,
        ((((images.map ImageChunk.ofImage).map serImage).take k).flatten).length
          = ((images.take k).map fun i => 36 + i.rgba.length).sum := by
  intro images
  induction images with
  | nil => intro _ k; simp
  | cons i rest ih =>
      intro hrgba k
      cases k with
      | zero => simp
      | succ k =>
          have hdiv : (serImage (ImageChunk.ofImage i)).length = 36 + i.rgba.length := by
            rw [serImage_length, ofImage_argb_length]
            have := hrgba i (by simp)
            omega
          simp only [List.map_cons, List.take_succ_cons, List.flatten_cons,
            List.length_append, hdiv, List.sum_cons]
          rw [ih (fun img hm => hrgba img (by simp [hm])) k]

/-- The serialized stream of any `Xcursor` value is a header block of
exactly `16 + 12 · toc_count` bytes followed by the chunks in order. -/
theorem serXcursor_split (x : Xcursor) :
    ∃ hdr, serXcursor x = hdr ++ (serChunks x).flatten
      ∧ hdr.length = 16 + 12 * x.toc.length := by
  refine ⟨[88, 99, 117, 114] ++ serU32 16 ++ serU32 65536 ++
    serU32 x.toc.length ++ (x.toc.map serToc).flatten, ?_, ?_⟩
  · simp [serXcursor, List.append_assoc]
  · simp only [List.length_append, serU32_length, flatten_map_serToc_length,
      List.length_cons, List.length_nil]

/-- **C2.**  For every frame list and optional comment accepted by
`Xcursor::new` (with in-range sizes and the `CursorImage` length
invariant), the TOC has one entry per image plus one for the comment, in
the same order as the chunks (comment first, then the images in input
order); the serialized stream is a header of `16 + 12·toc_count` bytes
followed by the chunks, so the first chunk starts at absolute offset
`16 + 12·toc_count`; the comment chunk occupies `20 + comment.len` bytes
and each image chunk `36 + 4·width·height` bytes; and every TOC entry's
position field equals the absolute file offset of its chunk. -/
theorem C2_xcursor_layout :
    ∀ (images : List CursorImage) (info : Option (List Nat)) (x : Xcursor),
      Xcursor.new images info = .ok x →
      (∀ img ∈ images, img.rgba.length = 4 * (img.width * img.height)) →
      16 + 12 * (images.length + match info with | some _ => 1 | none => 0)
        + (match info with | some s => 20 + s.length | none => 0)
        + (images.map fun i => 36 + i.rgba.length).sum < 4294967296 →
      x.toc.length = images.length + (match info with | some _ => 1 | none => 0)
      ∧ x.images = images.map ImageChunk.ofImage
      ∧ x.comment = info.map (fun s => (⟨3, s⟩ : CommentChunk))
      ∧ (∀ c, x.comment = some c → (serComment c).length = 20 + c.string.length)
      ∧ (∀ ic ∈ x.images, (serImage ic).length = 36 + 4 * (ic.width * ic.height))
      ∧ (∃ hdr, serXcursor x = hdr ++ (serChunks x).flatten
          ∧ hdr.length = 16 + 12 * x.toc.length)
      ∧ (∀ k, k < x.toc.length →
          (x.toc.getD k ⟨0, 0, 0⟩).position
            = 16 + 12 * x.toc.length + (((serChunks x).take k).flatten).length) := by
  intro images info x hok hrgba hsz
  cases info with
  | none =>
      dsimp only at hsz
      simp only [Xcursor.new, Nat.add_zero] at hok
      rw [if_neg (by omega)] at hok
      have h12 : images.length * 12 % 4294967296 = images.length * 12 :=
        Nat.mod_eq_of_lt (by omega)
      have hoff : (16 + images.length * 12 % 4294967296) % 4294967296
          = 16 + images.length * 12 := by
        rw [h12]
        exact Nat.mod_eq_of_lt (by omega)
      rw [hoff] at hok
      obtain ⟨toc, chunks, fin, hbi, hch, htl, hpk⟩ :=
        buildImages_spec images (16 + images.length * 12) (by omega)
      rw [hbi] at hok
      have hx : (⟨toc, none, chunks⟩ : Xcursor) = x := by simpa using hok
      subst hx
      refine ⟨by simpa using htl, by simpa using hch, rfl, by simp, ?_, serXcursor_split _, ?_⟩
      · intro ic hic
        simp only [hch] at hic
        rw [List.mem_map] at hic
        obtain ⟨img, him, rfl⟩ := hic
        rw [serImage_length, ofImage_argb_length]
        have := hrgba img him
        simp only [ImageChunk.ofImage]
        omega
      · intro k hk
        simp only at hk
        rw [htl] at hk
        obtain ⟨hp, -, -⟩ := hpk k hk
        have hser : serChunks ⟨toc, none, chunks⟩
            = (images.map ImageChunk.ofImage).map serImage := by
          simp [serChunks, hch]
        simp only [hser]
        rw [flatten_take_map_serImage images hrgba k]
        simp only [hp, htl]
        omega
  | some s =>
      dsimp only at hsz
      simp only [Xcursor.new] at hok
      rw [if_neg (by omega)] at hok
      rw [if_neg (by omega : ¬ 4294967296 ≤ s.length)] at hok
      have h12 : (images.length + 1) * 12 % 4294967296 = (images.length + 1) * 12 :=
        Nat.mod_eq_of_lt (by omega)
      have hoff : (16 + (images.length + 1) * 12 % 4294967296) % 4294967296
          = 16 + (images.length + 1) * 12 := by
        rw [h12]
        exact Nat.mod_eq_of_lt (by omega)
      have h20 : (20 + s.length) % 4294967296 = 20 + s.length :=
        Nat.mod_eq_of_lt (by omega)
      rw [hoff, h20] at hok
      have hpos1 : (16 + (images.length + 1) * 12 + (20 + s.length)) % 4294967296
          = 16 + (images.length + 1) * 12 + (20 + s.length) :=
        Nat.mod_eq_of_lt (by omega)
      rw [hpos1] at hok
      obtain ⟨toc, chunks, fin, hbi, hch, htl, hpk⟩ :=
        buildImages_spec images (16 + (images.length + 1) * 12 + (20 + s.length))
          (by omega)
      rw [hbi] at hok
      have hx : (⟨⟨chunkTypeComment, 3, 16 + (images.length + 1) * 12⟩ :: toc,
          some ⟨3, s⟩, chunks⟩ : Xcursor) = x := by simpa using hok
      subst hx
      refine ⟨by simp [htl], by simpa using hch, rfl, ?_, ?_, serXcursor_split _, ?_⟩
      · intro c hc
        have : (⟨3, s⟩ : CommentChunk) = c := by simpa using hc
        subst this
        exact serComment_length _
      · intro ic hic
        simp only [hch] at hic
        rw [List.mem_map] at hic
        obtain ⟨img, him, rfl⟩ := hic
        rw [serImage_length, ofImage_argb_length]
        have := hrgba img him
        simp only [ImageChunk.ofImage]
        omega
      · intro k hk
        simp only [List.length_cons] at hk
        rw [htl] at hk
        have hser : serChunks ⟨⟨chunkTypeComment, 3, 16 + (images.length + 1) * 12⟩ :: toc,
            some ⟨3, s⟩, chunks⟩
            = serComment ⟨3, s⟩ :: (images.map ImageChunk.ofImage).map serImage := by
          simp [serChunks, hch]
        simp only [hser, List.length_cons, htl]
        cases k with
        | zero => simp; omega
        | succ k =>
            have hk' : k < images.length := by omega
            obtain ⟨hp, -, -⟩ := hpk k hk'
            simp only [List.getD_cons_succ, List.take_succ_cons, List.flatten_cons,
              List.length_append, hp, serComment_length]
            rw [flatten_take_map_serImage images hrgba k]
            omega

/-- **C2 witness.**  A 1×1 opaque-red cursor with a one-byte comment:
two TOC entries (comment at offset 40 = 16 + 2·12, image at offset
61 = 40 + 21), and the image word is the little-endian encoding of the
bytes `00 00 FF FF`. -/
theorem C2_witness :
    (⟨[⟨4294836225, 3, 40⟩, ⟨4294770690, 1, 61⟩], some ⟨3, [99]⟩,
      [⟨1, 1, 1, 0, 0, 0, [4294901760]⟩]⟩ : Xcursor).toc.length
      = [(⟨1, 1, 0, 0, [255, 0, 0, 255], 0⟩ : CursorImage)].length + 1 :=
  (C2_xcursor_layout [⟨1, 1, 0, 0, [255, 0, 0, 255], 0⟩] (some [99])
    ⟨[⟨4294836225, 3, 40⟩, ⟨4294770690, 1, 61⟩], some ⟨3, [99]⟩,
      [⟨1, 1, 1, 0, 0, 0, [4294901760]⟩]⟩
    (by decide) (by decide) (by decide)).1

end Currust
